import Mathlib

/-!
Verification of the relational materializer (`Project` in `crates/cli/src/main.rs`)
of the symbol-dependency tracker.

Strings are modelled at character granularity (`String` / its `.data` char list);
the byte slice `canonical_path[project_root.len()..]` taken after a successful
`starts_with` check coincides with dropping `project_root.length` characters,
because the matched prefix is exactly `project_root`.

The database row operations (`dt_database::models`) and the path resolver
(`dt_core::path_resolver`) are not part of the sources under verification
(only their callers are); they are modelled from the specification, each such
definition carrying a doc comment that says so. Fallible Rust functions
(returning `anyhow::Result`) are embedded as `Except String`; handlers whose
only failure mode in the model is a database I/O error are embedded as total
functions on the database state.
-/

namespace DT

/-- Variant tag of a symbol row, from `models::SymbolVariant`. -/
inductive SymbolVariant where
  | LocalVariable
  | NamedExport
  | DefaultExport
  deriving DecidableEq

/-- How a symbol enters a module from another module (`dt_core::parser::types::FromType`). -/
inductive FromType where
  | Named : String → FromType
  | Default : FromType
  | Namespace : FromType
  deriving DecidableEq

/-- A cross-module reference: specifier plus import form
(`dt_core::parser::types::FromOtherModule`; the `from` field is called
`from_path` here because `from` is a Lean keyword). -/
structure FromOtherModule where
  from_path : String
  from_type : FromType
  deriving DecidableEq

/-- Source of an export (`dt_core::parser::types::ModuleExport`). -/
inductive ModuleExport where
  | Local : String → ModuleExport
  | ReExportFrom : FromOtherModule → ModuleExport
  deriving DecidableEq

/-- A module-scoped local variable (`dt_core::parser::types::ModuleScopedVariable`). -/
structure ModuleScopedVariable where
  depend_on : Option (List String)
  import_from : Option FromOtherModule
  deriving DecidableEq

/-- Per-module record produced by the extractor
(`dt_core::parser::types::SymbolDependency`); hash maps are modelled as
association lists in iteration order. -/
structure SymbolDependency where
  canonical_path : String
  local_variable_table : List (String × ModuleScopedVariable)
  named_export_table : List (String × ModuleExport)
  default_export : Option ModuleExport
  re_export_star_from : Option (List String)
  deriving DecidableEq

/-- Modelled from the spec: the reserved anonymous-default symbol name
(`dt_core::parser::anonymous_default_export::SYMBOL_NAME_FOR_ANONYMOUS_DEFAULT_EXPORT`,
whose definition is outside the verified sources). The spec requires only
that it is one fixed string that is not a legal source identifier; the
properties below depend on no more than that. -/
def SYMBOL_NAME_FOR_ANONYMOUS_DEFAULT_EXPORT : String := "[anonymous_default_export]"

/-- A `Module` table row (`models::Module`). -/
structure DModule where
  id : Nat
  canonical_path : String
  deriving DecidableEq

/-- A `Symbol` table row (`models::Symbol`). -/
structure DSymbol where
  id : Nat
  module_id : Nat
  variant : SymbolVariant
  name : String
  deriving DecidableEq

/-- A `Translation` table row (`models::Translation`). -/
structure DTranslation where
  id : Nat
  key : String
  value : String
  deriving DecidableEq

/-- A `Route` table row (`models::Route`). -/
structure DRoute where
  id : Nat
  path : String
  deriving DecidableEq

/-- The database state: every table as a list of rows (a single project is
assumed, so the `project_id` column is left implicit), plus one fresh-id
counter shared by all tables. -/
structure DB where
  modules : List DModule
  symbols : List DSymbol
  edges : List (Nat × Nat)
  translations : List DTranslation
  translation_usages : List (Nat × Nat)
  routes : List DRoute
  route_usages : List (Nat × Nat)
  next_id : Nat
  deriving DecidableEq

/-- Modelled from the spec: `get_or_create_module`, an idempotent upsert on
the module's canonical path (`models::Project::get_or_create_module`, not
under the verified sources). -/
def get_or_create_module (db : DB) (path : String) : DModule × DB :=
  match db.modules.find? (fun m => decide (m.canonical_path = path)) with
  | some m => (m, db)
  | none =>
    let m : DModule := ⟨db.next_id, path⟩
    (m, { db with modules := db.modules ++ [m], next_id := db.next_id + 1 })

/-- Modelled from the spec: `get_module`, a plain lookup that fails when the
module row does not exist (`models::Project::get_module`, not under the
verified sources). -/
def get_module (db : DB) (path : String) : Except String DModule :=
  match db.modules.find? (fun m => decide (m.canonical_path = path)) with
  | some m => .ok m
  | none => .error "module not found"

/-- Modelled from the spec: `get_or_create_symbol`, an idempotent upsert on
`(module, variant, name)` (`models::Module::get_or_create_symbol`, not under
the verified sources). -/
def get_or_create_symbol (db : DB) (module_id : Nat) (variant : SymbolVariant)
    (name : String) : DSymbol × DB :=
  match db.symbols.find? (fun s =>
      decide (s.module_id = module_id ∧ s.variant = variant ∧ s.name = name)) with
  | some s => (s, db)
  | none =>
    let s : DSymbol := ⟨db.next_id, module_id, variant, name⟩
    (s, { db with symbols := db.symbols ++ [s], next_id := db.next_id + 1 })

/-- Modelled from the spec: `add_symbol` inserts a fresh symbol row
unconditionally (`models::Module::add_symbol`, not under the verified
sources; the spec's list of idempotent upserts does not include it, and its
name indicates a plain insert). -/
def add_symbol (db : DB) (module_id : Nat) (variant : SymbolVariant)
    (name : String) : DSymbol × DB :=
  let s : DSymbol := ⟨db.next_id, module_id, variant, name⟩
  (s, { db with symbols := db.symbols ++ [s], next_id := db.next_id + 1 })

/-- Modelled from the spec: `get_symbol`, a plain lookup that fails when the
symbol row does not exist (`models::Module::get_symbol`, not under the
verified sources). -/
def get_symbol (db : DB) (module_id : Nat) (variant : SymbolVariant)
    (name : String) : Except String DSymbol :=
  match db.symbols.find? (fun s =>
      decide (s.module_id = module_id ∧ s.variant = variant ∧ s.name = name)) with
  | some s => .ok s
  | none => .error "symbol not found"

/-- Modelled from the spec: the named-export symbols of a module
(`models::Module::get_named_export_symbols`, not under the verified
sources). -/
def get_named_export_symbols (db : DB) (module_id : Nat) : List DSymbol :=
  db.symbols.filter (fun s =>
    decide (s.module_id = module_id ∧ s.variant = SymbolVariant.NamedExport))

/-- Modelled from the spec: `create_symbol_dependency_edge`
(`models::SymbolDependency::create` in the callers), which creates each edge
at most once per ordered pair of symbols. -/
def create_symbol_dependency_edge (db : DB) (src_symbol_id dst_symbol_id : Nat) : DB :=
  if (src_symbol_id, dst_symbol_id) ∈ db.edges then db
  else { db with edges := db.edges ++ [(src_symbol_id, dst_symbol_id)] }

/-- Modelled from the spec: `add_translation`, an upsert keyed by the
translation key (`models::Project::add_translation`, not under the verified
sources). -/
def add_translation (db : DB) (key value : String) : DB :=
  match db.translations.find? (fun t => decide (t.key = key)) with
  | some _ => db
  | none =>
    { db with translations := db.translations ++ [⟨db.next_id, key, value⟩],
              next_id := db.next_id + 1 }

/-- Modelled from the spec: `get_translation`, a lookup by key that fails
when no translation row has that key (`models::Project::get_translation`,
not under the verified sources). -/
def get_translation (db : DB) (key : String) : Except String DTranslation :=
  match db.translations.find? (fun t => decide (t.key = key)) with
  | some t => .ok t
  | none => .error "translation not found"

/-- Modelled from the spec: `create_translation_usage`, an idempotent upsert
on the pair (`models::TranslationUsage::create` in the callers). -/
def create_translation_usage (db : DB) (translation_id symbol_id : Nat) : DB :=
  if (translation_id, symbol_id) ∈ db.translation_usages then db
  else { db with translation_usages := db.translation_usages ++ [(translation_id, symbol_id)] }

/-- Modelled from the spec: `add_route`, an idempotent upsert keyed by the
route path (`models::Project::add_route`, not under the verified sources). -/
def add_route (db : DB) (path : String) : DRoute × DB :=
  match db.routes.find? (fun r => decide (r.path = path)) with
  | some r => (r, db)
  | none =>
    let r : DRoute := ⟨db.next_id, path⟩
    (r, { db with routes := db.routes ++ [r], next_id := db.next_id + 1 })

/-- Modelled from the spec: `create_route_usage`, an idempotent upsert on the
pair (`models::RouteUsage::create` in the callers). -/
def create_route_usage (db : DB) (route_id symbol_id : Nat) : DB :=
  if (route_id, symbol_id) ∈ db.route_usages then db
  else { db with route_usages := db.route_usages ++ [(route_id, symbol_id)] }

/-- The `Project` handle of `main.rs`: the canonical project root and the
path resolver. The resolver (`dt_core::path_resolver::PathResolver`, outside
the verified sources) is abstracted as a function returning `none` where the
Rust resolver returns an error. -/
structure Project where
  project_root : String
  resolve : String → String → Option String

/-- Embeds `Project::remove_prefix`: strip the project root when the path
starts with it, otherwise return the path unchanged. -/
def remove_prefix (project_root canonical_path : String) : String :=
  match project_root.data.isPrefixOf canonical_path.data with
  | true => ⟨canonical_path.data.drop project_root.data.length⟩
  | false => canonical_path

/-- Embeds `Project::resolve_path`: resolver result with the project-root
prefix stripped; `none` models the `Err` case. -/
def resolve_path (p : Project) (current_path import_src : String) : Option String :=
  (p.resolve current_path import_src).map (fun r => remove_prefix p.project_root r)

/-- Embeds the namespace-expansion loop shared verbatim by
`handle_local_variable_table` and `handle_named_export_table`: one edge per
named-export symbol of the imported module, skipping the reserved
anonymous-default name. -/
def create_edges_to_named_exports (db : DB) (current_id : Nat) :
    List DSymbol → DB
  | [] => db
  | depend_on_symbol :: rest =>
    if depend_on_symbol.name ≠ SYMBOL_NAME_FOR_ANONYMOUS_DEFAULT_EXPORT then
      create_edges_to_named_exports
        (create_symbol_dependency_edge db current_id depend_on_symbol.id) current_id rest
    else
      create_edges_to_named_exports db current_id rest

/-- Embeds the `match from_type` block shared verbatim by
`handle_local_variable_table` and `handle_named_export_table`: edge to the
imported module's named export, default export, or expanded namespace. -/
def create_edge_for_from_type (db : DB) (current_id import_from_module_id : Nat) :
    FromType → DB
  | .Named depend_on_symbol_name =>
    let (depend_on_symbol, db) :=
      get_or_create_symbol db import_from_module_id .NamedExport depend_on_symbol_name
    create_symbol_dependency_edge db current_id depend_on_symbol.id
  | .Default =>
    let (depend_on_symbol, db) :=
      get_or_create_symbol db import_from_module_id .DefaultExport ""
    create_symbol_dependency_edge db current_id depend_on_symbol.id
  | .Namespace =>
    create_edges_to_named_exports db current_id
      (get_named_export_symbols db import_from_module_id)

/-- Embeds the `depend_on` inner loop of `handle_local_variable_table`. -/
def process_depend_on (db : DB) (module_id current_id : Nat) : List String → DB
  | [] => db
  | depend_on_symbol_name :: rest =>
    let (depend_on_symbol, db) :=
      get_or_create_symbol db module_id .LocalVariable depend_on_symbol_name
    process_depend_on (create_symbol_dependency_edge db current_id depend_on_symbol.id)
      module_id current_id rest

/-- Embeds one iteration of the `handle_local_variable_table` loop: create
the local symbol, its `depend_on` edges, and its `import_from` edge(s). -/
def process_local_variable (p : Project) (module : DModule) (canonical_path : String)
    (db : DB) (entry : String × ModuleScopedVariable) : DB :=
  let (symbol_name, v) := entry
  let (current_symbol, db) := get_or_create_symbol db module.id .LocalVariable symbol_name
  let db :=
    match v.depend_on with
    | some depend_on => process_depend_on db module.id current_symbol.id depend_on
    | none => db
  match v.import_from with
  | some ⟨from_path, from_type⟩ =>
    match resolve_path p canonical_path from_path with
    | some f =>
      let (import_from_module, db) := get_or_create_module db f
      create_edge_for_from_type db current_symbol.id import_from_module.id from_type
    | none => db
  | none => db

/-- Embeds the loop of `Project::handle_local_variable_table`. -/
def handle_local_variable_table_loop (p : Project) (module : DModule)
    (canonical_path : String) (db : DB) : List (String × ModuleScopedVariable) → DB
  | [] => db
  | entry :: rest =>
    handle_local_variable_table_loop p module canonical_path
      (process_local_variable p module canonical_path db entry) rest

/-- Embeds `Project::handle_local_variable_table`. -/
def handle_local_variable_table (p : Project) (module : DModule)
    (sd : SymbolDependency) (db : DB) : DB :=
  handle_local_variable_table_loop p module sd.canonical_path db sd.local_variable_table

/-- Embeds one iteration of the `handle_named_export_table` loop. -/
def process_named_export (p : Project) (module : DModule) (canonical_path : String)
    (db : DB) (entry : String × ModuleExport) : DB :=
  let (exported_symbol_name, exported_from) := entry
  let (current_symbol, db) :=
    get_or_create_symbol db module.id .NamedExport exported_symbol_name
  match exported_from with
  | .Local depend_on_symbol_name =>
    let (depend_on_symbol, db) :=
      get_or_create_symbol db module.id .LocalVariable depend_on_symbol_name
    create_symbol_dependency_edge db current_symbol.id depend_on_symbol.id
  | .ReExportFrom ⟨from_path, from_type⟩ =>
    match resolve_path p canonical_path from_path with
    | some f =>
      let (import_from_module, db) := get_or_create_module db f
      create_edge_for_from_type db current_symbol.id import_from_module.id from_type
    | none => db

/-- Embeds the loop of `Project::handle_named_export_table`. -/
def handle_named_export_table_loop (p : Project) (module : DModule)
    (canonical_path : String) (db : DB) : List (String × ModuleExport) → DB
  | [] => db
  | entry :: rest =>
    handle_named_export_table_loop p module canonical_path
      (process_named_export p module canonical_path db entry) rest

/-- Embeds `Project::handle_named_export_table`. -/
def handle_named_export_table (p : Project) (module : DModule)
    (sd : SymbolDependency) (db : DB) : DB :=
  handle_named_export_table_loop p module sd.canonical_path db sd.named_export_table

/-- Embeds `Project::handle_default_export`; the `unreachable!` arm for a
namespace default re-export is modelled as an error result. -/
def handle_default_export (p : Project) (module : DModule)
    (sd : SymbolDependency) (db : DB) : Except String DB :=
  match sd.default_export with
  | none => .ok db
  | some default_export =>
    let (current_symbol, db) := get_or_create_symbol db module.id .DefaultExport ""
    match default_export with
    | .Local depend_on_symbol_name =>
      let (depend_on_symbol, db) :=
        get_or_create_symbol db module.id .LocalVariable depend_on_symbol_name
      .ok (create_symbol_dependency_edge db current_symbol.id depend_on_symbol.id)
    | .ReExportFrom ⟨from_path, from_type⟩ =>
      match resolve_path p sd.canonical_path from_path with
      | some f =>
        let (import_from_module, db) := get_or_create_module db f
        match from_type with
        | .Named depend_on_symbol_name =>
          let (depend_on_symbol, db) :=
            get_or_create_symbol db import_from_module.id .NamedExport depend_on_symbol_name
          .ok (create_symbol_dependency_edge db current_symbol.id depend_on_symbol.id)
        | .Default =>
          let (depend_on_symbol, db) :=
            get_or_create_symbol db import_from_module.id .DefaultExport ""
          .ok (create_symbol_dependency_edge db current_symbol.id depend_on_symbol.id)
        | .Namespace =>
          .error "unreachable: can not export namespace from other module as default export"
      | none => .ok db

/-- Embeds the inner loop of `handle_re_export_star_from`: for each
named-export symbol of the imported module other than the reserved
anonymous-default name, add a mirroring named-export symbol on the current
module (via `add_symbol`) and edge it to the imported symbol. -/
def process_star_named_exports (db : DB) (module : DModule) : List DSymbol → DB
  | [] => db
  | depend_on_symbol :: rest =>
    if depend_on_symbol.name ≠ SYMBOL_NAME_FOR_ANONYMOUS_DEFAULT_EXPORT then
      let (current_symbol, db) := add_symbol db module.id .NamedExport depend_on_symbol.name
      process_star_named_exports
        (create_symbol_dependency_edge db current_symbol.id depend_on_symbol.id) module rest
    else
      process_star_named_exports db module rest

/-- Embeds the outer loop of `Project::handle_re_export_star_from`; the
imported module is looked up with `get_module`, whose failure aborts the
handler. -/
def handle_re_export_star_from_loop (p : Project) (module : DModule)
    (canonical_path : String) (db : DB) : List String → Except String DB
  | [] => .ok db
  | from_path :: rest =>
    match resolve_path p canonical_path from_path with
    | some f =>
      match get_module db f with
      | .ok import_from_module =>
        handle_re_export_star_from_loop p module canonical_path
          (process_star_named_exports db module
            (get_named_export_symbols db import_from_module.id)) rest
      | .error e => .error e
    | none => handle_re_export_star_from_loop p module canonical_path db rest

/-- Embeds `Project::handle_re_export_star_from`. -/
def handle_re_export_star_from (p : Project) (module : DModule)
    (sd : SymbolDependency) (db : DB) : Except String DB :=
  match sd.re_export_star_from with
  | none => .ok db
  | some l => handle_re_export_star_from_loop p module sd.canonical_path db l

/-- Embeds `Project::add_module`: create the module row, run the four
handlers in their fixed order, return the module row. -/
def add_module (p : Project) (db : DB) (sd : SymbolDependency) :
    Except String (DModule × DB) :=
  let (module, db) :=
    get_or_create_module db ( remove_prefix p.project_root sd.canonical_path)
  let db := handle_local_variable_table p module sd db
  let db := handle_named_export_table p module sd db
  match handle_default_export p module sd db with
  | .error e => .error e
  | .ok db =>
    match handle_re_export_star_from p module sd db with
    | .error e => .error e
    | .ok db => .ok (module, db)

/-- Embeds the key loop of `Project::add_i18n_usage`: a key with a
translation row yields a usage row; a key without one is skipped. -/
def add_i18n_usage_keys (db : DB) (symbol : DSymbol) : List String → DB
  | [] => db
  | key :: rest =>
    match get_translation db key with
    | .ok translation =>
      add_i18n_usage_keys (create_translation_usage db translation.id symbol.id) symbol rest
    | .error _ => add_i18n_usage_keys db symbol rest

/-- Embeds the outer loop of `Project::add_i18n_usage`: the named symbol must
exist as a local variable of the module, otherwise the whole call fails. -/
def add_i18n_usage_loop (db : DB) (module : DModule) :
    List (String × List String) → Except String DB
  | [] => .ok db
  | (symbol_name, i18n_keys) :: rest =>
    match get_symbol db module.id .LocalVariable symbol_name with
    | .ok symbol => add_i18n_usage_loop (add_i18n_usage_keys db symbol i18n_keys) module rest
    | .error e => .error e

/-- Embeds `Project::add_i18n_usage`; the usage map is an association list in
iteration order. -/
def add_i18n_usage (db : DB) (module : DModule)
    (i18n_usage : List (String × List String)) : Except String DB :=
  add_i18n_usage_loop db module i18n_usage

/-- A route record (`dt_core::route::Route`); the `depend_on` set is a list
in iteration order. -/
structure Route where
  path : String
  depend_on : List String
  deriving DecidableEq

/-- Embeds the inner loop of `Project::add_route_usage`: each referenced
symbol must exist as a local variable of the module, otherwise the whole
call fails. -/
def add_route_usage_symbols (db : DB) (module : DModule) (route : DRoute) :
    List String → Except String DB
  | [] => .ok db
  | symbol_name :: rest =>
    match get_symbol db module.id .LocalVariable symbol_name with
    | .ok symbol =>
      add_route_usage_symbols (create_route_usage db route.id symbol.id) module route rest
    | .error e => .error e

/-- Embeds the outer loop of `Project::add_route_usage`. -/
def add_route_usage_loop (db : DB) (module : DModule) : List Route → Except String DB
  | [] => .ok db
  | r :: rest =>
    let (route, db) := add_route db r.path
    match add_route_usage_symbols db module route r.depend_on with
    | .ok db => add_route_usage_loop db module rest
    | .error e => .error e

/-- Embeds `Project::add_route_usage`. -/
def add_route_usage (db : DB) (module : DModule) (route_usage : List Route) :
    Except String DB :=
  add_route_usage_loop db module route_usage

/-- Well-formedness of a database state: symbol ids are below the fresh-id
counter and pairwise distinct. -/
def db_wf (db : DB) : Prop :=
  (∀ s ∈ db.symbols, s.id < db.next_id) ∧ (db.symbols.map DSymbol.id).Nodup

instance (db : DB) : Decidable (db_wf db) := by
  unfold db_wf
  infer_instance

theorem get_or_create_symbol_fst_module_id (db : DB) (module_id : Nat)
    (variant : SymbolVariant) (name : String) :
    (get_or_create_symbol db module_id variant name).1.module_id = module_id ∧
    (get_or_create_symbol db module_id variant name).1.variant = variant ∧
    (get_or_create_symbol db module_id variant name).1.name = name := by
  unfold get_or_create_symbol
  cases hf : db.symbols.find? (fun s =>
      decide (s.module_id = module_id ∧ s.variant = variant ∧ s.name = name)) with
  | none => exact ⟨rfl, rfl, rfl⟩
  | some s =>
    have := List.find?_some hf
    have h := of_decide_eq_true this
    exact ⟨h.1, h.2.1, h.2.2⟩

theorem get_or_create_symbol_fst_mem (db : DB) (module_id : Nat)
    (variant : SymbolVariant) (name : String) :
    (get_or_create_symbol db module_id variant name).1 ∈
      (get_or_create_symbol db module_id variant name).2.symbols := by
  unfold get_or_create_symbol
  cases hf : db.symbols.find? (fun s =>
      decide (s.module_id = module_id ∧ s.variant = variant ∧ s.name = name)) with
  | none => simp
  | some s => exact List.mem_of_find?_eq_some hf

theorem get_or_create_symbol_symbols_grow (db : DB) (module_id : Nat)
    (variant : SymbolVariant) (name : String) :
    db.symbols <+: (get_or_create_symbol db module_id variant name).2.symbols := by
  unfold get_or_create_symbol
  cases hf : db.symbols.find? (fun s =>
      decide (s.module_id = module_id ∧ s.variant = variant ∧ s.name = name)) with
  | none => exact ⟨_, rfl⟩
  | some s => exact List.prefix_rfl

theorem get_or_create_symbol_modules (db : DB) (module_id : Nat)
    (variant : SymbolVariant) (name : String) :
    (get_or_create_symbol db module_id variant name).2.modules = db.modules := by
  unfold get_or_create_symbol
  cases hf : db.symbols.find? (fun s =>
      decide (s.module_id = module_id ∧ s.variant = variant ∧ s.name = name)) <;> rfl

theorem get_or_create_symbol_edges (db : DB) (module_id : Nat)
    (variant : SymbolVariant) (name : String) :
    (get_or_create_symbol db module_id variant name).2.edges = db.edges := by
  unfold get_or_create_symbol
  cases hf : db.symbols.find? (fun s =>
      decide (s.module_id = module_id ∧ s.variant = variant ∧ s.name = name)) <;> rfl

theorem get_or_create_symbol_next_id_le (db : DB) (module_id : Nat)
    (variant : SymbolVariant) (name : String) :
    db.next_id ≤ (get_or_create_symbol db module_id variant name).2.next_id := by
  unfold get_or_create_symbol
  cases hf : db.symbols.find? (fun s =>
      decide (s.module_id = module_id ∧ s.variant = variant ∧ s.name = name)) with
  | none => exact Nat.le_succ _
  | some s => exact Nat.le_refl _

theorem get_or_create_symbol_new_symbols (db : DB) (module_id : Nat)
    (variant : SymbolVariant) (name : String) :
    ∀ s ∈ (get_or_create_symbol db module_id variant name).2.symbols,
      s ∈ db.symbols ∨ db.next_id ≤ s.id := by
  unfold get_or_create_symbol
  cases hf : db.symbols.find? (fun s =>
      decide (s.module_id = module_id ∧ s.variant = variant ∧ s.name = name)) with
  | none =>
    intro s hs
    rcases List.mem_append.mp hs with h | h
    · exact Or.inl h
    · right
      rcases List.mem_singleton.mp h with rfl
      exact Nat.le_refl _
  | some s => exact fun s hs => Or.inl hs

theorem add_symbol_fst_fields (db : DB) (module_id : Nat)
    (variant : SymbolVariant) (name : String) :
    (add_symbol db module_id variant name).1 =
      ⟨db.next_id, module_id, variant, name⟩ := rfl

theorem add_symbol_symbols (db : DB) (module_id : Nat)
    (variant : SymbolVariant) (name : String) :
    (add_symbol db module_id variant name).2.symbols =
      db.symbols ++ [⟨db.next_id, module_id, variant, name⟩] := rfl

theorem add_symbol_modules (db : DB) (module_id : Nat)
    (variant : SymbolVariant) (name : String) :
    (add_symbol db module_id variant name).2.modules = db.modules := rfl

theorem add_symbol_edges (db : DB) (module_id : Nat)
    (variant : SymbolVariant) (name : String) :
    (add_symbol db module_id variant name).2.edges = db.edges := rfl

theorem get_or_create_module_fst_path (db : DB) (path : String) :
    (get_or_create_module db path).1.canonical_path = path := by
  unfold get_or_create_module
  cases hf : db.modules.find? (fun m => decide (m.canonical_path = path)) with
  | none => rfl
  | some m =>
    have h0 := List.find?_some hf
    have h : m.canonical_path = path := of_decide_eq_true h0
    exact h

theorem get_or_create_module_fst_mem (db : DB) (path : String) :
    (get_or_create_module db path).1 ∈ (get_or_create_module db path).2.modules := by
  unfold get_or_create_module
  cases hf : db.modules.find? (fun m => decide (m.canonical_path = path)) with
  | none => simp
  | some m => exact List.mem_of_find?_eq_some hf

theorem get_or_create_module_symbols (db : DB) (path : String) :
    (get_or_create_module db path).2.symbols = db.symbols := by
  unfold get_or_create_module
  cases hf : db.modules.find? (fun m => decide (m.canonical_path = path)) <;> rfl

theorem get_or_create_module_edges (db : DB) (path : String) :
    (get_or_create_module db path).2.edges = db.edges := by
  unfold get_or_create_module
  cases hf : db.modules.find? (fun m => decide (m.canonical_path = path)) <;> rfl

theorem get_or_create_module_modules_grow (db : DB) (path : String) :
    db.modules <+: (get_or_create_module db path).2.modules := by
  unfold get_or_create_module
  cases hf : db.modules.find? (fun m => decide (m.canonical_path = path)) with
  | none => exact ⟨_, rfl⟩
  | some m => exact List.prefix_rfl

theorem get_or_create_module_next_id_le (db : DB) (path : String) :
    db.next_id ≤ (get_or_create_module db path).2.next_id := by
  unfold get_or_create_module
  cases hf : db.modules.find? (fun m => decide (m.canonical_path = path)) with
  | none => exact Nat.le_succ _
  | some m => exact Nat.le_refl _

theorem create_symbol_dependency_edge_symbols (db : DB) (a b : Nat) :
    (create_symbol_dependency_edge db a b).symbols = db.symbols := by
  unfold create_symbol_dependency_edge
  split <;> rfl

theorem create_symbol_dependency_edge_modules (db : DB) (a b : Nat) :
    (create_symbol_dependency_edge db a b).modules = db.modules := by
  unfold create_symbol_dependency_edge
  split <;> rfl

theorem create_symbol_dependency_edge_next_id (db : DB) (a b : Nat) :
    (create_symbol_dependency_edge db a b).next_id = db.next_id := by
  unfold create_symbol_dependency_edge
  split <;> rfl

theorem create_symbol_dependency_edge_edges_grow (db : DB) (a b : Nat) :
    db.edges <+: (create_symbol_dependency_edge db a b).edges := by
  unfold create_symbol_dependency_edge
  split
  · exact List.prefix_rfl
  · exact ⟨_, rfl⟩

theorem create_symbol_dependency_edge_mem (db : DB) (a b : Nat) :
    (a, b) ∈ (create_symbol_dependency_edge db a b).edges := by
  unfold create_symbol_dependency_edge
  split
  · assumption
  · simp

theorem create_symbol_dependency_edge_edge_cases (db : DB) (a b : Nat) :
    ∀ e ∈ (create_symbol_dependency_edge db a b).edges, e ∈ db.edges ∨ e = (a, b) := by
  unfold create_symbol_dependency_edge
  split
  · exact fun e he => Or.inl he
  · intro e he
    rcases List.mem_append.mp he with h | h
    · exact Or.inl h
    · exact Or.inr (List.mem_singleton.mp h)

theorem create_edges_to_named_exports_symbols (c : Nat) (l : List DSymbol) :
    ∀ db : DB, (create_edges_to_named_exports db c l).symbols = db.symbols := by
  induction l with
  | nil => intro db; rfl
  | cons s rest ih =>
    intro db
    unfold create_edges_to_named_exports
    split
    · rw [ih, create_symbol_dependency_edge_symbols]
    · exact ih db

theorem create_edges_to_named_exports_modules (c : Nat) (l : List DSymbol) :
    ∀ db : DB, (create_edges_to_named_exports db c l).modules = db.modules := by
  induction l with
  | nil => intro db; rfl
  | cons s rest ih =>
    intro db
    unfold create_edges_to_named_exports
    split
    · rw [ih, create_symbol_dependency_edge_modules]
    · exact ih db

theorem create_edges_to_named_exports_next_id (c : Nat) (l : List DSymbol) :
    ∀ db : DB, (create_edges_to_named_exports db c l).next_id = db.next_id := by
  induction l with
  | nil => intro db; rfl
  | cons s rest ih =>
    intro db
    unfold create_edges_to_named_exports
    split
    · rw [ih, create_symbol_dependency_edge_next_id]
    · exact ih db

theorem create_edges_to_named_exports_edges_grow (c : Nat) (l : List DSymbol) :
    ∀ db : DB, db.edges <+: (create_edges_to_named_exports db c l).edges := by
  induction l with
  | nil => intro db; exact List.prefix_rfl
  | cons s rest ih =>
    intro db
    unfold create_edges_to_named_exports
    split
    · exact List.IsPrefix.trans (create_symbol_dependency_edge_edges_grow db c s.id) (ih _)
    · exact ih db

theorem create_edges_to_named_exports_edge_cases (c : Nat) (l : List DSymbol) :
    ∀ db : DB, ∀ e ∈ (create_edges_to_named_exports db c l).edges,
      e ∈ db.edges ∨
        ∃ s ∈ l, s.name ≠ SYMBOL_NAME_FOR_ANONYMOUS_DEFAULT_EXPORT ∧ e = (c, s.id) := by
  induction l with
  | nil => intro db e he; exact Or.inl he
  | cons s rest ih =>
    intro db e he
    unfold create_edges_to_named_exports at he
    by_cases hn : s.name ≠ SYMBOL_NAME_FOR_ANONYMOUS_DEFAULT_EXPORT
    · rw [if_pos hn] at he
      rcases ih _ e he with h | ⟨t, ht, hname, heq⟩
      · rcases create_symbol_dependency_edge_edge_cases db c s.id e h with h' | h'
        · exact Or.inl h'
        · exact Or.inr ⟨s, List.mem_cons_self s rest, hn, h'⟩
      · exact Or.inr ⟨t, List.mem_cons_of_mem s ht, hname, heq⟩
    · rw [if_neg hn] at he
      rcases ih db e he with h | ⟨t, ht, hname, heq⟩
      · exact Or.inl h
      · exact Or.inr ⟨t, List.mem_cons_of_mem s ht, hname, heq⟩

theorem get_named_export_symbols_mem (db : DB) (module_id : Nat) :
    ∀ s ∈ get_named_export_symbols db module_id,
      s ∈ db.symbols ∧ s.module_id = module_id ∧ s.variant = SymbolVariant.NamedExport := by
  intro s hs
  have hm := List.mem_filter.mp hs
  have hp := of_decide_eq_true hm.2
  exact ⟨hm.1, hp.1, hp.2⟩

theorem get_module_ok (db : DB) (path : String) (m : DModule)
    (h : get_module db path = .ok m) :
    m ∈ db.modules ∧ m.canonical_path = path := by
  unfold get_module at h
  cases hf : db.modules.find? (fun m => decide (m.canonical_path = path)) with
  | none => rw [hf] at h; exact absurd h (by simp)
  | some m' =>
    rw [hf] at h
    have hm : m' = m := by injection h
    subst hm
    have h0 := List.find?_some hf
    exact ⟨List.mem_of_find?_eq_some hf, of_decide_eq_true h0⟩

theorem get_module_absent (db : DB) (path : String)
    (h : ∀ m ∈ db.modules, m.canonical_path ≠ path) :
    get_module db path = .error "module not found" := by
  unfold get_module
  have hf : db.modules.find? (fun m => decide (m.canonical_path = path)) = none := by
    rw [List.find?_eq_none]
    intro m hm
    simpa using h m hm
  rw [hf]

theorem get_symbol_absent (db : DB) (module_id : Nat) (variant : SymbolVariant)
    (name : String)
    (h : ∀ s ∈ db.symbols,
      ¬(s.module_id = module_id ∧ s.variant = variant ∧ s.name = name)) :
    get_symbol db module_id variant name = .error "symbol not found" := by
  unfold get_symbol
  have hf : db.symbols.find? (fun s =>
      decide (s.module_id = module_id ∧ s.variant = variant ∧ s.name = name)) = none := by
    rw [List.find?_eq_none]
    intro s hs
    simpa using h s hs
  rw [hf]

theorem process_depend_on_cons (db : DB) (module_id current_id : Nat)
    (n : String) (rest : List String) :
    process_depend_on db module_id current_id (n :: rest) =
      process_depend_on
        (create_symbol_dependency_edge
          (get_or_create_symbol db module_id .LocalVariable n).2 current_id
          (get_or_create_symbol db module_id .LocalVariable n).1.id)
        module_id current_id rest := rfl

theorem process_depend_on_symbols_grow (module_id current_id : Nat) (l : List String) :
    ∀ db : DB, db.symbols <+: (process_depend_on db module_id current_id l).symbols := by
  induction l with
  | nil => intro db; exact List.prefix_rfl
  | cons n rest ih =>
    intro db
    rw [process_depend_on_cons]
    refine List.IsPrefix.trans (get_or_create_symbol_symbols_grow db module_id .LocalVariable n) ?_
    refine List.IsPrefix.trans ?_ (ih _)
    rw [create_symbol_dependency_edge_symbols]

theorem process_depend_on_modules (module_id current_id : Nat) (l : List String) :
    ∀ db : DB, (process_depend_on db module_id current_id l).modules = db.modules := by
  induction l with
  | nil => intro db; rfl
  | cons n rest ih =>
    intro db
    unfold process_depend_on
    rw [ih, create_symbol_dependency_edge_modules, get_or_create_symbol_modules]

theorem create_edge_for_from_type_modules (db : DB) (current_id import_from_module_id : Nat)
    (ft : FromType) :
    (create_edge_for_from_type db current_id import_from_module_id ft).modules =
      db.modules := by
  cases ft with
  | Named n =>
    unfold create_edge_for_from_type
    rw [create_symbol_dependency_edge_modules, get_or_create_symbol_modules]
  | Default =>
    unfold create_edge_for_from_type
    rw [create_symbol_dependency_edge_modules, get_or_create_symbol_modules]
  | Namespace =>
    unfold create_edge_for_from_type
    rw [create_edges_to_named_exports_modules]

theorem process_star_named_exports_cons (db : DB) (module : DModule)
    (s : DSymbol) (rest : List DSymbol) :
    process_star_named_exports db module (s :: rest) =
      if s.name ≠ SYMBOL_NAME_FOR_ANONYMOUS_DEFAULT_EXPORT then
        process_star_named_exports
          (create_symbol_dependency_edge
            (add_symbol db module.id .NamedExport s.name).2
            (add_symbol db module.id .NamedExport s.name).1.id s.id) module rest
      else process_star_named_exports db module rest := rfl

theorem process_star_named_exports_modules (module : DModule) (l : List DSymbol) :
    ∀ db : DB, (process_star_named_exports db module l).modules = db.modules := by
  induction l with
  | nil => intro db; rfl
  | cons s rest ih =>
    intro db
    rw [process_star_named_exports_cons]
    split
    · rw [ih, create_symbol_dependency_edge_modules, add_symbol_modules]
    · exact ih db

theorem process_star_named_exports_symbols_grow (module : DModule) (l : List DSymbol) :
    ∀ db : DB, db.symbols <+: (process_star_named_exports db module l).symbols := by
  induction l with
  | nil => intro db; exact List.prefix_rfl
  | cons s rest ih =>
    intro db
    rw [process_star_named_exports_cons]
    split
    · refine List.IsPrefix.trans ?_ (ih _)
      rw [create_symbol_dependency_edge_symbols, add_symbol_symbols]
      exact ⟨_, rfl⟩
    · exact ih db

theorem process_star_named_exports_edges_grow (module : DModule) (l : List DSymbol) :
    ∀ db : DB, db.edges <+: (process_star_named_exports db module l).edges := by
  induction l with
  | nil => intro db; exact List.prefix_rfl
  | cons s rest ih =>
    intro db
    rw [process_star_named_exports_cons]
    split
    · refine List.IsPrefix.trans ?_ (ih _)
      have h1 := create_symbol_dependency_edge_edges_grow
        (add_symbol db module.id .NamedExport s.name).2
        (add_symbol db module.id .NamedExport s.name).1.id s.id
      rw [add_symbol_edges] at h1
      exact h1
    · exact ih db

theorem process_star_named_exports_next_id_le (module : DModule) (l : List DSymbol) :
    ∀ db : DB, db.next_id ≤ (process_star_named_exports db module l).next_id := by
  induction l with
  | nil => intro db; exact Nat.le_refl _
  | cons s rest ih =>
    intro db
    rw [process_star_named_exports_cons]
    split
    · refine Nat.le_trans (Nat.le_succ _) ?_
      have h := ih (create_symbol_dependency_edge
        (add_symbol db module.id .NamedExport s.name).2
        (add_symbol db module.id .NamedExport s.name).1.id s.id)
      rwa [create_symbol_dependency_edge_next_id] at h
    · exact ih db

theorem process_star_named_exports_new_symbols (module : DModule) (l : List DSymbol) :
    ∀ db : DB, ∀ t ∈ (process_star_named_exports db module l).symbols,
      t ∈ db.symbols ∨ db.next_id ≤ t.id := by
  induction l with
  | nil => intro db t ht; exact Or.inl ht
  | cons s rest ih =>
    intro db t ht
    rw [process_star_named_exports_cons] at ht
    by_cases hn : s.name ≠ SYMBOL_NAME_FOR_ANONYMOUS_DEFAULT_EXPORT
    · rw [if_pos hn] at ht
      rcases ih _ t ht with h | h
      · rw [create_symbol_dependency_edge_symbols, add_symbol_symbols] at h
        rcases List.mem_append.mp h with h' | h'
        · exact Or.inl h'
        · right
          rcases List.mem_singleton.mp h' with rfl
          exact Nat.le_refl _
      · rw [create_symbol_dependency_edge_next_id] at h
        exact Or.inr (Nat.le_trans (Nat.le_succ _) h)
    · rw [if_neg hn] at ht
      exact ih db t ht

theorem process_star_named_exports_edge_cases (module : DModule) (l : List DSymbol) :
    ∀ db : DB, ∀ e ∈ (process_star_named_exports db module l).edges,
      e ∈ db.edges ∨
        ∃ s ∈ l, s.name ≠ SYMBOL_NAME_FOR_ANONYMOUS_DEFAULT_EXPORT ∧ e.2 = s.id := by
  induction l with
  | nil => intro db e he; exact Or.inl he
  | cons s rest ih =>
    intro db e he
    rw [process_star_named_exports_cons] at he
    by_cases hn : s.name ≠ SYMBOL_NAME_FOR_ANONYMOUS_DEFAULT_EXPORT
    · rw [if_pos hn] at he
      rcases ih _ e he with h | ⟨t, ht, hname, heq⟩
      · rcases create_symbol_dependency_edge_edge_cases _ _ _ e h with h' | h'
        · rw [add_symbol_edges] at h'
          exact Or.inl h'
        · right
          exact ⟨s, List.mem_cons_self s rest, hn, by rw [h']⟩
      · exact Or.inr ⟨t, List.mem_cons_of_mem s ht, hname, heq⟩
    · rw [if_neg hn] at he
      rcases ih db e he with h | ⟨t, ht, hname, heq⟩
      · exact Or.inl h
      · exact Or.inr ⟨t, List.mem_cons_of_mem s ht, hname, heq⟩

theorem process_star_named_exports_creates (module : DModule) (l : List DSymbol) :
    ∀ db : DB, ∀ s ∈ l, s.name ≠ SYMBOL_NAME_FOR_ANONYMOUS_DEFAULT_EXPORT →
      ∃ cur ∈ (process_star_named_exports db module l).symbols,
        cur.module_id = module.id ∧ cur.variant = SymbolVariant.NamedExport ∧
        cur.name = s.name ∧ (cur.id, s.id) ∈ (process_star_named_exports db module l).edges := by
  induction l with
  | nil => intro db s hs; exact absurd hs (List.not_mem_nil s)
  | cons s0 rest ih =>
    intro db s hs hname
    rcases List.mem_cons.mp hs with rfl | hmem
    · rw [process_star_named_exports_cons, if_pos hname]
      set db1 := create_symbol_dependency_edge
        (add_symbol db module.id .NamedExport s.name).2
        (add_symbol db module.id .NamedExport s.name).1.id s.id with hdb1
      refine ⟨⟨db.next_id, module.id, .NamedExport, s.name⟩, ?_, rfl, rfl, rfl, ?_⟩
      · have hp := process_star_named_exports_symbols_grow module rest db1
        refine List.IsPrefix.subset hp ?_
        rw [hdb1, create_symbol_dependency_edge_symbols, add_symbol_symbols]
        simp
      · have hp := process_star_named_exports_edges_grow module rest db1
        refine List.IsPrefix.subset hp ?_
        rw [hdb1]
        have h := create_symbol_dependency_edge_mem
          (add_symbol db module.id .NamedExport s.name).2 db.next_id s.id
        exact h
    · rw [process_star_named_exports_cons]
      split
      · exact ih _ s hmem hname
      · exact ih db s hmem hname

theorem db_wf_append_symbol (db : DB) (module_id : Nat) (variant : SymbolVariant)
    (name : String) (h : db_wf db) :
    db_wf { db with symbols := db.symbols ++ [⟨db.next_id, module_id, variant, name⟩],
                    next_id := db.next_id + 1 } := by
  obtain ⟨hlt, hnd⟩ := h
  constructor
  · intro s hs
    rcases List.mem_append.mp hs with h' | h'
    · exact Nat.lt_succ_of_lt (hlt s h')
    · rcases List.mem_singleton.mp h' with rfl
      exact Nat.lt_succ_self _
  · show ((db.symbols ++ [(⟨db.next_id, module_id, variant, name⟩ : DSymbol)]).map DSymbol.id).Nodup
    rw [List.map_append, List.nodup_append]
    refine ⟨hnd, ?_, ?_⟩
    · simp
    · intro a ha hb
      simp only [List.map_cons, List.map_nil, List.mem_singleton] at hb
      rcases List.mem_map.mp ha with ⟨s, hs, hid⟩
      have hlt' := hlt s hs
      omega

theorem db_wf_add_symbol (db : DB) (module_id : Nat) (variant : SymbolVariant)
    (name : String) (h : db_wf db) :
    db_wf (add_symbol db module_id variant name).2 :=
  db_wf_append_symbol db module_id variant name h

theorem db_wf_get_or_create_symbol (db : DB) (module_id : Nat) (variant : SymbolVariant)
    (name : String) (h : db_wf db) :
    db_wf (get_or_create_symbol db module_id variant name).2 := by
  unfold get_or_create_symbol
  cases hf : db.symbols.find? (fun s =>
      decide (s.module_id = module_id ∧ s.variant = variant ∧ s.name = name)) with
  | none => exact db_wf_append_symbol db module_id variant name h
  | some s => exact h

theorem db_wf_get_or_create_module (db : DB) (path : String) (h : db_wf db) :
    db_wf (get_or_create_module db path).2 := by
  obtain ⟨hlt, hnd⟩ := h
  unfold get_or_create_module
  cases hf : db.modules.find? (fun m => decide (m.canonical_path = path)) with
  | none =>
    refine ⟨?_, hnd⟩
    intro s hs
    exact Nat.lt_succ_of_lt (hlt s hs)
  | some m => exact ⟨hlt, hnd⟩

theorem db_wf_create_symbol_dependency_edge (db : DB) (a b : Nat) (h : db_wf db) :
    db_wf (create_symbol_dependency_edge db a b) := by
  unfold db_wf at h ⊢
  rw [create_symbol_dependency_edge_symbols, create_symbol_dependency_edge_next_id]
  exact h

theorem db_wf_process_star_named_exports (module : DModule) (l : List DSymbol) :
    ∀ db : DB, db_wf db → db_wf (process_star_named_exports db module l) := by
  induction l with
  | nil => intro db h; exact h
  | cons s rest ih =>
    intro db h
    rw [process_star_named_exports_cons]
    split
    · exact ih _ (db_wf_create_symbol_dependency_edge _ _ _
        (db_wf_add_symbol db module.id .NamedExport s.name h))
    · exact ih db h

theorem handle_re_export_star_from_loop_cons_none (p : Project) (module : DModule)
    (canonical_path : String) (db : DB) (frm : String) (rest : List String)
    (hr : resolve_path p canonical_path frm = none) :
    handle_re_export_star_from_loop p module canonical_path db (frm :: rest) =
      handle_re_export_star_from_loop p module canonical_path db rest := by
  simp only [handle_re_export_star_from_loop, hr]

theorem handle_re_export_star_from_loop_cons_ok (p : Project) (module : DModule)
    (canonical_path : String) (db : DB) (frm : String) (rest : List String)
    (f : String) (m : DModule)
    (hr : resolve_path p canonical_path frm = some f)
    (hm : get_module db f = .ok m) :
    handle_re_export_star_from_loop p module canonical_path db (frm :: rest) =
      handle_re_export_star_from_loop p module canonical_path
        (process_star_named_exports db module (get_named_export_symbols db m.id)) rest := by
  simp only [handle_re_export_star_from_loop, hr, hm]

theorem handle_re_export_star_from_loop_cons_error (p : Project) (module : DModule)
    (canonical_path : String) (db : DB) (frm : String) (rest : List String)
    (f e : String)
    (hr : resolve_path p canonical_path frm = some f)
    (hm : get_module db f = .error e) :
    handle_re_export_star_from_loop p module canonical_path db (frm :: rest) =
      .error e := by
  simp only [handle_re_export_star_from_loop, hr, hm]

theorem handle_re_export_star_from_loop_ok_modules (p : Project) (module : DModule)
    (canonical_path : String) (l : List String) :
    ∀ db db' : DB,
      handle_re_export_star_from_loop p module canonical_path db l = .ok db' →
      db'.modules = db.modules := by
  induction l with
  | nil =>
    intro db db' h
    simp only [handle_re_export_star_from_loop] at h
    cases h
    rfl
  | cons frm rest ih =>
    intro db db' h
    rcases hr : resolve_path p canonical_path frm with _ | f
    · rw [handle_re_export_star_from_loop_cons_none p module canonical_path db frm rest hr] at h
      exact ih db db' h
    · rcases hgm : get_module db f with e | import_from_module
      · rw [handle_re_export_star_from_loop_cons_error p module canonical_path db frm rest
          f e hr hgm] at h
        exact absurd h (by simp)
      · rw [handle_re_export_star_from_loop_cons_ok p module canonical_path db frm rest
          f import_from_module hr hgm] at h
        have h2 := ih _ db' h
        rw [h2, process_star_named_exports_modules]

theorem handle_re_export_star_from_loop_ok_symbols_grow (p : Project) (module : DModule)
    (canonical_path : String) (l : List String) :
    ∀ db db' : DB,
      handle_re_export_star_from_loop p module canonical_path db l = .ok db' →
      db.symbols <+: db'.symbols := by
  induction l with
  | nil =>
    intro db db' h
    simp only [handle_re_export_star_from_loop] at h
    cases h
    exact List.prefix_rfl
  | cons frm rest ih =>
    intro db db' h
    rcases hr : resolve_path p canonical_path frm with _ | f
    · rw [handle_re_export_star_from_loop_cons_none p module canonical_path db frm rest hr] at h
      exact ih db db' h
    · rcases hgm : get_module db f with e | import_from_module
      · rw [handle_re_export_star_from_loop_cons_error p module canonical_path db frm rest
          f e hr hgm] at h
        exact absurd h (by simp)
      · rw [handle_re_export_star_from_loop_cons_ok p module canonical_path db frm rest
          f import_from_module hr hgm] at h
        exact List.IsPrefix.trans
          (process_star_named_exports_symbols_grow module _ db) (ih _ db' h)

theorem handle_re_export_star_from_loop_ok_edges_grow (p : Project) (module : DModule)
    (canonical_path : String) (l : List String) :
    ∀ db db' : DB,
      handle_re_export_star_from_loop p module canonical_path db l = .ok db' →
      db.edges <+: db'.edges := by
  induction l with
  | nil =>
    intro db db' h
    simp only [handle_re_export_star_from_loop] at h
    cases h
    exact List.prefix_rfl
  | cons frm rest ih =>
    intro db db' h
    rcases hr : resolve_path p canonical_path frm with _ | f
    · rw [handle_re_export_star_from_loop_cons_none p module canonical_path db frm rest hr] at h
      exact ih db db' h
    · rcases hgm : get_module db f with e | import_from_module
      · rw [handle_re_export_star_from_loop_cons_error p module canonical_path db frm rest
          f e hr hgm] at h
        exact absurd h (by simp)
      · rw [handle_re_export_star_from_loop_cons_ok p module canonical_path db frm rest
          f import_from_module hr hgm] at h
        exact List.IsPrefix.trans
          (process_star_named_exports_edges_grow module _ db) (ih _ db' h)

theorem handle_re_export_star_from_loop_ok_wf (p : Project) (module : DModule)
    (canonical_path : String) (l : List String) :
    ∀ db db' : DB,
      handle_re_export_star_from_loop p module canonical_path db l = .ok db' →
      db_wf db → db_wf db' := by
  induction l with
  | nil =>
    intro db db' h hwf
    simp only [handle_re_export_star_from_loop] at h
    cases h
    exact hwf
  | cons frm rest ih =>
    intro db db' h hwf
    rcases hr : resolve_path p canonical_path frm with _ | f
    · rw [handle_re_export_star_from_loop_cons_none p module canonical_path db frm rest hr] at h
      exact ih db db' h hwf
    · rcases hgm : get_module db f with e | import_from_module
      · rw [handle_re_export_star_from_loop_cons_error p module canonical_path db frm rest
          f e hr hgm] at h
        exact absurd h (by simp)
      · rw [handle_re_export_star_from_loop_cons_ok p module canonical_path db frm rest
          f import_from_module hr hgm] at h
        exact ih _ db' h (db_wf_process_star_named_exports module _ db hwf)

theorem handle_re_export_star_from_loop_edge_cases (p : Project) (module : DModule)
    (canonical_path : String) (l : List String) :
    ∀ db db' : DB,
      handle_re_export_star_from_loop p module canonical_path db l = .ok db' →
      ∀ e ∈ db'.edges, e ∈ db.edges ∨
        ∃ s ∈ db'.symbols, s.variant = SymbolVariant.NamedExport ∧
          s.name ≠ SYMBOL_NAME_FOR_ANONYMOUS_DEFAULT_EXPORT ∧ e.2 = s.id := by
  induction l with
  | nil =>
    intro db db' h e he
    simp only [handle_re_export_star_from_loop] at h
    cases h
    exact Or.inl he
  | cons frm rest ih =>
    intro db db' h e he
    rcases hr : resolve_path p canonical_path frm with _ | f
    · rw [handle_re_export_star_from_loop_cons_none p module canonical_path db frm rest hr] at h
      exact ih db db' h e he
    · rcases hgm : get_module db f with e' | import_from_module
      · rw [handle_re_export_star_from_loop_cons_error p module canonical_path db frm rest
          f e' hr hgm] at h
        exact absurd h (by simp)
      · rw [handle_re_export_star_from_loop_cons_ok p module canonical_path db frm rest
          f import_from_module hr hgm] at h
        rcases ih _ db' h e he with h1 | h1
        · rcases process_star_named_exports_edge_cases module _ db e h1 with h2 | ⟨s, hs, hn, hid⟩
          · exact Or.inl h2
          · right
            obtain ⟨hsmem, _, hvar⟩ := get_named_export_symbols_mem db import_from_module.id s hs
            refine ⟨s, ?_, hvar, hn, hid⟩
            have hp := List.IsPrefix.trans
              (process_star_named_exports_symbols_grow module _ db)
              (handle_re_export_star_from_loop_ok_symbols_grow p module canonical_path rest _ db' h)
            exact List.IsPrefix.subset hp hsmem
        · exact Or.inr h1

theorem get_translation_present (db : DB) (key : String)
    (h : ∃ t ∈ db.translations, t.key = key) :
    ∃ t, get_translation db key = .ok t ∧ t ∈ db.translations ∧ t.key = key := by
  unfold get_translation
  cases hf : db.translations.find? (fun t => decide (t.key = key)) with
  | none =>
    exfalso
    rw [List.find?_eq_none] at hf
    rcases h with ⟨t, ht, hk⟩
    exact absurd (by simpa using hk) (by simpa using hf t ht)
  | some t =>
    refine ⟨t, rfl, List.mem_of_find?_eq_some hf, ?_⟩
    have h0 := List.find?_some hf
    exact of_decide_eq_true h0

theorem get_translation_ok (db : DB) (key : String) (t : DTranslation)
    (h : get_translation db key = .ok t) :
    t ∈ db.translations ∧ t.key = key := by
  unfold get_translation at h
  cases hf : db.translations.find? (fun t => decide (t.key = key)) with
  | none => rw [hf] at h; exact absurd h (by simp)
  | some t' =>
    rw [hf] at h
    have ht : t' = t := by injection h
    subst ht
    have h0 := List.find?_some hf
    exact ⟨List.mem_of_find?_eq_some hf, of_decide_eq_true h0⟩

theorem create_translation_usage_symbols (db : DB) (a b : Nat) :
    (create_translation_usage db a b).symbols = db.symbols := by
  unfold create_translation_usage
  split <;> rfl

theorem create_translation_usage_translations (db : DB) (a b : Nat) :
    (create_translation_usage db a b).translations = db.translations := by
  unfold create_translation_usage
  split <;> rfl

theorem create_translation_usage_usages_grow (db : DB) (a b : Nat) :
    db.translation_usages <+: (create_translation_usage db a b).translation_usages := by
  unfold create_translation_usage
  split
  · exact List.prefix_rfl
  · exact ⟨_, rfl⟩

theorem create_translation_usage_mem (db : DB) (a b : Nat) :
    (a, b) ∈ (create_translation_usage db a b).translation_usages := by
  unfold create_translation_usage
  split
  · assumption
  · simp

theorem create_translation_usage_cases (db : DB) (a b : Nat) :
    ∀ u ∈ (create_translation_usage db a b).translation_usages,
      u ∈ db.translation_usages ∨ u = (a, b) := by
  unfold create_translation_usage
  split
  · exact fun u hu => Or.inl hu
  · intro u hu
    rcases List.mem_append.mp hu with h | h
    · exact Or.inl h
    · exact Or.inr (List.mem_singleton.mp h)

theorem add_i18n_usage_keys_cons_ok (db : DB) (symbol : DSymbol) (key : String)
    (rest : List String) (t : DTranslation) (h : get_translation db key = .ok t) :
    add_i18n_usage_keys db symbol (key :: rest) =
      add_i18n_usage_keys (create_translation_usage db t.id symbol.id) symbol rest := by
  simp only [add_i18n_usage_keys, h]

theorem add_i18n_usage_keys_cons_error (db : DB) (symbol : DSymbol) (key : String)
    (rest : List String) (e : String) (h : get_translation db key = .error e) :
    add_i18n_usage_keys db symbol (key :: rest) = add_i18n_usage_keys db symbol rest := by
  simp only [add_i18n_usage_keys, h]

theorem add_i18n_usage_keys_symbols (symbol : DSymbol) (keys : List String) :
    ∀ db : DB, (add_i18n_usage_keys db symbol keys).symbols = db.symbols := by
  induction keys with
  | nil => intro db; rfl
  | cons key rest ih =>
    intro db
    rcases hg : get_translation db key with e | t
    · rw [add_i18n_usage_keys_cons_error db symbol key rest e hg]
      exact ih db
    · rw [add_i18n_usage_keys_cons_ok db symbol key rest t hg]
      rw [ih, create_translation_usage_symbols]

theorem add_i18n_usage_keys_translations (symbol : DSymbol) (keys : List String) :
    ∀ db : DB, (add_i18n_usage_keys db symbol keys).translations = db.translations := by
  induction keys with
  | nil => intro db; rfl
  | cons key rest ih =>
    intro db
    rcases hg : get_translation db key with e | t
    · rw [add_i18n_usage_keys_cons_error db symbol key rest e hg]
      exact ih db
    · rw [add_i18n_usage_keys_cons_ok db symbol key rest t hg]
      rw [ih, create_translation_usage_translations]

theorem add_i18n_usage_keys_usages_grow (symbol : DSymbol) (keys : List String) :
    ∀ db : DB,
      db.translation_usages <+: (add_i18n_usage_keys db symbol keys).translation_usages := by
  induction keys with
  | nil => intro db; exact List.prefix_rfl
  | cons key rest ih =>
    intro db
    rcases hg : get_translation db key with e | t
    · rw [add_i18n_usage_keys_cons_error db symbol key rest e hg]
      exact ih db
    · rw [add_i18n_usage_keys_cons_ok db symbol key rest t hg]
      exact List.IsPrefix.trans (create_translation_usage_usages_grow db t.id symbol.id) (ih _)

theorem add_i18n_usage_keys_creates (symbol : DSymbol) (keys : List String) :
    ∀ db : DB, ∀ key ∈ keys, (∃ t ∈ db.translations, t.key = key) →
      ∃ t ∈ db.translations, t.key = key ∧
        (t.id, symbol.id) ∈ (add_i18n_usage_keys db symbol keys).translation_usages := by
  induction keys with
  | nil => intro db key hk; exact absurd hk (List.not_mem_nil key)
  | cons k rest ih =>
    intro db key hk hex
    rcases List.mem_cons.mp hk with rfl | hmem
    · rcases get_translation_present db key hex with ⟨t, hok, hmem', hkey⟩
      rw [add_i18n_usage_keys_cons_ok db symbol key rest t hok]
      refine ⟨t, hmem', hkey, ?_⟩
      refine List.IsPrefix.subset (add_i18n_usage_keys_usages_grow symbol rest _) ?_
      exact create_translation_usage_mem db t.id symbol.id
    · rcases hg : get_translation db k with e | t
      · rw [add_i18n_usage_keys_cons_error db symbol k rest e hg]
        exact ih db key hmem hex
      · rw [add_i18n_usage_keys_cons_ok db symbol k rest t hg]
        have hex' : ∃ t' ∈ (create_translation_usage db t.id symbol.id).translations,
            t'.key = key := by
          rw [create_translation_usage_translations]
          exact hex
        rcases ih _ key hmem hex' with ⟨t', ht', hkey', hmem'⟩
        rw [create_translation_usage_translations] at ht'
        exact ⟨t', ht', hkey', hmem'⟩

theorem add_i18n_usage_keys_cases (symbol : DSymbol) (keys : List String) :
    ∀ db : DB, ∀ u ∈ (add_i18n_usage_keys db symbol keys).translation_usages,
      u ∈ db.translation_usages ∨
        ∃ t ∈ db.translations, t.key ∈ keys ∧ u = (t.id, symbol.id) := by
  induction keys with
  | nil => intro db u hu; exact Or.inl hu
  | cons k rest ih =>
    intro db u hu
    rcases hg : get_translation db k with e | t
    · rw [add_i18n_usage_keys_cons_error db symbol k rest e hg] at hu
      rcases ih db u hu with h | ⟨t, ht, hk, heq⟩
      · exact Or.inl h
      · exact Or.inr ⟨t, ht, List.mem_cons_of_mem k hk, heq⟩
    · rw [add_i18n_usage_keys_cons_ok db symbol k rest t hg] at hu
      rcases ih _ u hu with h | ⟨t', ht', hk, heq⟩
      · rcases create_translation_usage_cases db t.id symbol.id u h with h' | h'
        · exact Or.inl h'
        · obtain ⟨htmem, htkey⟩ := get_translation_ok db k t hg
          exact Or.inr ⟨t, htmem, by rw [htkey]; exact List.mem_cons_self k rest, h'⟩
      · rw [create_translation_usage_translations] at ht'
        exact Or.inr ⟨t', ht', List.mem_cons_of_mem k hk, heq⟩

theorem add_i18n_usage_loop_cons_ok (db : DB) (module : DModule) (symbol_name : String)
    (i18n_keys : List String) (rest : List (String × List String)) (symbol : DSymbol)
    (h : get_symbol db module.id .LocalVariable symbol_name = .ok symbol) :
    add_i18n_usage_loop db module ((symbol_name, i18n_keys) :: rest) =
      add_i18n_usage_loop (add_i18n_usage_keys db symbol i18n_keys) module rest := by
  simp only [add_i18n_usage_loop, h]

theorem add_i18n_usage_loop_cons_error (db : DB) (module : DModule) (symbol_name : String)
    (i18n_keys : List String) (rest : List (String × List String)) (e : String)
    (h : get_symbol db module.id .LocalVariable symbol_name = .error e) :
    add_i18n_usage_loop db module ((symbol_name, i18n_keys) :: rest) = .error e := by
  simp only [add_i18n_usage_loop, h]

theorem add_i18n_usage_loop_unknown_symbol (module : DModule)
    (table : List (String × List String)) :
    ∀ db : DB, ∀ symbol_name i18n_keys, (symbol_name, i18n_keys) ∈ table →
      (∀ s ∈ db.symbols,
        ¬(s.module_id = module.id ∧ s.variant = SymbolVariant.LocalVariable ∧
          s.name = symbol_name)) →
      (add_i18n_usage_loop db module table).isOk = false := by
  induction table with
  | nil =>
    intro db symbol_name i18n_keys hmem
    exact absurd hmem (List.not_mem_nil _)
  | cons entry rest ih =>
    intro db symbol_name i18n_keys hmem habs
    rcases List.mem_cons.mp hmem with heq | hmem'
    · rcases heq
      rw [add_i18n_usage_loop_cons_error db module symbol_name i18n_keys rest
        "symbol not found" (get_symbol_absent db module.id .LocalVariable symbol_name habs)]
      rfl
    · rcases entry with ⟨name0, keys0⟩
      rcases hg : get_symbol db module.id .LocalVariable name0 with e | symbol0
      · rw [add_i18n_usage_loop_cons_error db module name0 keys0 rest e hg]
        rfl
      · rw [add_i18n_usage_loop_cons_ok db module name0 keys0 rest symbol0 hg]
        refine ih _ symbol_name i18n_keys hmem' ?_
        rw [add_i18n_usage_keys_symbols]
        exact habs

theorem add_route_symbols (db : DB) (path : String) :
    (add_route db path).2.symbols = db.symbols := by
  unfold add_route
  cases hf : db.routes.find? (fun r => decide (r.path = path)) <;> rfl

theorem create_route_usage_symbols (db : DB) (a b : Nat) :
    (create_route_usage db a b).symbols = db.symbols := by
  unfold create_route_usage
  split <;> rfl

theorem add_route_usage_symbols_cons_ok (db : DB) (module : DModule) (route : DRoute)
    (symbol_name : String) (rest : List String) (symbol : DSymbol)
    (h : get_symbol db module.id .LocalVariable symbol_name = .ok symbol) :
    add_route_usage_symbols db module route (symbol_name :: rest) =
      add_route_usage_symbols (create_route_usage db route.id symbol.id) module route rest := by
  simp only [add_route_usage_symbols, h]

theorem add_route_usage_symbols_cons_error (db : DB) (module : DModule) (route : DRoute)
    (symbol_name : String) (rest : List String) (e : String)
    (h : get_symbol db module.id .LocalVariable symbol_name = .error e) :
    add_route_usage_symbols db module route (symbol_name :: rest) = .error e := by
  simp only [add_route_usage_symbols, h]

theorem add_route_usage_symbols_ok_symbols (module : DModule) (route : DRoute)
    (names : List String) :
    ∀ db db' : DB, add_route_usage_symbols db module route names = .ok db' →
      db'.symbols = db.symbols := by
  induction names with
  | nil =>
    intro db db' h
    simp only [add_route_usage_symbols] at h
    cases h
    rfl
  | cons n rest ih =>
    intro db db' h
    rcases hg : get_symbol db module.id .LocalVariable n with e | symbol
    · rw [add_route_usage_symbols_cons_error db module route n rest e hg] at h
      exact absurd h (by simp)
    · rw [add_route_usage_symbols_cons_ok db module route n rest symbol hg] at h
      have h2 := ih _ db' h
      rw [h2, create_route_usage_symbols]

theorem add_route_usage_symbols_unknown (module : DModule) (route : DRoute)
    (names : List String) :
    ∀ db : DB, ∀ symbol_name ∈ names,
      (∀ s ∈ db.symbols,
        ¬(s.module_id = module.id ∧ s.variant = SymbolVariant.LocalVariable ∧
          s.name = symbol_name)) →
      (add_route_usage_symbols db module route names).isOk = false := by
  induction names with
  | nil =>
    intro db symbol_name hmem
    exact absurd hmem (List.not_mem_nil _)
  | cons n rest ih =>
    intro db symbol_name hmem habs
    rcases List.mem_cons.mp hmem with rfl | hmem'
    · rw [add_route_usage_symbols_cons_error db module route symbol_name rest
        "symbol not found" (get_symbol_absent db module.id .LocalVariable symbol_name habs)]
      rfl
    · rcases hg : get_symbol db module.id .LocalVariable n with e | symbol
      · rw [add_route_usage_symbols_cons_error db module route n rest e hg]
        rfl
      · rw [add_route_usage_symbols_cons_ok db module route n rest symbol hg]
        refine ih _ symbol_name hmem' ?_
        rw [create_route_usage_symbols]
        exact habs

theorem add_route_usage_loop_cons (db : DB) (module : DModule) (r : Route)
    (rest : List Route) :
    add_route_usage_loop db module (r :: rest) =
      match add_route_usage_symbols (add_route db r.path).2 module
          (add_route db r.path).1 r.depend_on with
      | .ok db1 => add_route_usage_loop db1 module rest
      | .error e => .error e := rfl

theorem add_route_usage_loop_unknown (module : DModule) (route_usage : List Route) :
    ∀ db : DB, ∀ r ∈ route_usage, ∀ symbol_name ∈ r.depend_on,
      (∀ s ∈ db.symbols,
        ¬(s.module_id = module.id ∧ s.variant = SymbolVariant.LocalVariable ∧
          s.name = symbol_name)) →
      (add_route_usage_loop db module route_usage).isOk = false := by
  induction route_usage with
  | nil =>
    intro db r hmem
    exact absurd hmem (List.not_mem_nil _)
  | cons r0 rest ih =>
    intro db r hmem symbol_name hname habs
    rw [add_route_usage_loop_cons]
    rcases List.mem_cons.mp hmem with rfl | hmem'
    · have habs1 : ∀ s ∈ (add_route db r.path).2.symbols,
          ¬(s.module_id = module.id ∧ s.variant = SymbolVariant.LocalVariable ∧
            s.name = symbol_name) := by
        rw [add_route_symbols]
        exact habs
      have herr := add_route_usage_symbols_unknown module (add_route db r.path).1
        r.depend_on (add_route db r.path).2 symbol_name hname habs1
      rcases hs : add_route_usage_symbols (add_route db r.path).2 module
          (add_route db r.path).1 r.depend_on with e | db1
      · rfl
      · rw [hs] at herr
        exact Bool.noConfusion herr
    · rcases hs : add_route_usage_symbols (add_route db r0.path).2 module
          (add_route db r0.path).1 r0.depend_on with e | db1
      · rfl
      · have hsym1 : db1.symbols = db.symbols := by
          rw [add_route_usage_symbols_ok_symbols module (add_route db r0.path).1
            r0.depend_on (add_route db r0.path).2 db1 hs, add_route_symbols]
        refine ih db1 r hmem' symbol_name hname ?_
        rw [hsym1]
        exact habs

deriving instance DecidableEq for Except

/-- A concrete project handle whose resolver fails on every specifier. -/
def failing_resolver : Project := ⟨"", fun _ _ => none⟩

/-- A concrete project handle whose resolver returns the specifier itself. -/
def identity_resolver : Project := ⟨"", fun _ import_src => some import_src⟩

/-- The empty database. -/
def empty_db : DB := ⟨[], [], [], [], [], [], [], 0⟩

/-- A record with no symbols at all. -/
def sd_trivial : SymbolDependency := ⟨"a", [], [], none, none⟩

/-- An unfolding of `add_module` through the projections of the created
module row. -/
theorem add_module_eq (p : Project) (db : DB) (sd : SymbolDependency) :
    add_module p db sd =
      match handle_default_export p
          (get_or_create_module db ( remove_prefix p.project_root sd.canonical_path)).1 sd
          (handle_named_export_table p
            (get_or_create_module db ( remove_prefix p.project_root sd.canonical_path)).1 sd
            (handle_local_variable_table p
              (get_or_create_module db ( remove_prefix p.project_root sd.canonical_path)).1 sd
              (get_or_create_module db ( remove_prefix p.project_root sd.canonical_path)).2)) with
      | .error e => .error e
      | .ok db3 =>
        match handle_re_export_star_from p
            (get_or_create_module db ( remove_prefix p.project_root sd.canonical_path)).1 sd db3 with
        | .error e => .error e
        | .ok db4 =>
          .ok ((get_or_create_module db ( remove_prefix p.project_root sd.canonical_path)).1,
            db4) := rfl

theorem handle_re_export_star_from_loop_unresolved_target (p : Project) (module : DModule)
    (canonical_path : String) (frm f : String)
    (hres : resolve_path p canonical_path frm = some f) (l : List String) :
    ∀ db : DB, frm ∈ l → (∀ m ∈ db.modules, m.canonical_path ≠ f) →
      (handle_re_export_star_from_loop p module canonical_path db l).isOk = false := by
  induction l with
  | nil => intro db hmem; exact absurd hmem (List.not_mem_nil _)
  | cons frm0 rest ih =>
    intro db hmem habs
    rcases List.mem_cons.mp hmem with rfl | hmem'
    · rw [handle_re_export_star_from_loop_cons_error p module canonical_path db frm rest f
        "module not found" hres (get_module_absent db f habs)]
      rfl
    · rcases hr0 : resolve_path p canonical_path frm0 with _ | f0
      · rw [handle_re_export_star_from_loop_cons_none p module canonical_path db frm0 rest hr0]
        exact ih db hmem' habs
      · rcases hg0 : get_module db f0 with e | m0
        · rw [handle_re_export_star_from_loop_cons_error p module canonical_path db frm0 rest
            f0 e hr0 hg0]
          rfl
        · rw [handle_re_export_star_from_loop_cons_ok p module canonical_path db frm0 rest
            f0 m0 hr0 hg0]
          refine ih _ hmem' ?_
          rw [process_star_named_exports_modules]
          exact habs

/-- C2: a cross-module reference whose specifier fails to resolve is silently
skipped: the local-variable entry behaves exactly as if it had no
`import_from` (and its own local symbol is still created), the named-export
entry creates only its own named-export symbol, and the default-export
handler still succeeds creating only the default-export symbol. -/
theorem unresolved_specifier_dropped (p : Project) (module : DModule) (db : DB) :
    (∀ canonical_path symbol_name depend_on from_path from_type,
      resolve_path p canonical_path from_path = none →
      process_local_variable p module canonical_path db
          (symbol_name, ⟨depend_on, some ⟨from_path, from_type⟩⟩) =
        process_local_variable p module canonical_path db (symbol_name, ⟨depend_on, none⟩) ∧
      ∃ s ∈ (process_local_variable p module canonical_path db
          (symbol_name, ⟨depend_on, some ⟨from_path, from_type⟩⟩)).symbols,
        s.module_id = module.id ∧ s.variant = SymbolVariant.LocalVariable ∧
          s.name = symbol_name) ∧
    (∀ canonical_path exported_symbol_name from_path from_type,
      resolve_path p canonical_path from_path = none →
      process_named_export p module canonical_path db
          (exported_symbol_name, .ReExportFrom ⟨from_path, from_type⟩) =
        (get_or_create_symbol db module.id .NamedExport exported_symbol_name).2 ∧
      ∃ s ∈ (process_named_export p module canonical_path db
          (exported_symbol_name, .ReExportFrom ⟨from_path, from_type⟩)).symbols,
        s.module_id = module.id ∧ s.variant = SymbolVariant.NamedExport ∧
          s.name = exported_symbol_name) ∧
    (∀ sd from_path from_type,
      sd.default_export = some (.ReExportFrom ⟨from_path, from_type⟩) →
      resolve_path p sd.canonical_path from_path = none →
      handle_default_export p module sd db =
        .ok (get_or_create_symbol db module.id .DefaultExport "").2) := by
  refine ⟨?_, ?_, ?_⟩
  · intro canonical_path symbol_name depend_on from_path from_type hres
    rcases hg : get_or_create_symbol db module.id .LocalVariable symbol_name with ⟨cur, db1⟩
    have hmem := get_or_create_symbol_fst_mem db module.id .LocalVariable symbol_name
    have hfields := get_or_create_symbol_fst_module_id db module.id .LocalVariable symbol_name
    rw [hg] at hmem hfields
    constructor
    · simp only [process_local_variable, hres, hg]
    · simp only [process_local_variable, hres, hg]
      rcases depend_on with _ | dep
      · exact ⟨cur, hmem, hfields.1, hfields.2.1, hfields.2.2⟩
      · refine ⟨cur, ?_, hfields.1, hfields.2.1, hfields.2.2⟩
        exact List.IsPrefix.subset (process_depend_on_symbols_grow module.id cur.id dep db1) hmem
  · intro canonical_path exported_symbol_name from_path from_type hres
    rcases hg : get_or_create_symbol db module.id .NamedExport exported_symbol_name with ⟨cur, db1⟩
    have hmem := get_or_create_symbol_fst_mem db module.id .NamedExport exported_symbol_name
    have hfields := get_or_create_symbol_fst_module_id db module.id .NamedExport exported_symbol_name
    rw [hg] at hmem hfields
    constructor
    · simp only [process_named_export, hres, hg]
    · simp only [process_named_export, hres, hg]
      exact ⟨cur, hmem, hfields.1, hfields.2.1, hfields.2.2⟩
  · intro sd from_path from_type hde hres
    simp only [handle_default_export, hde, hres]

/-- Witness for C2 with a resolver that fails on every specifier: the three
handlers drop the unresolved reference while still creating the entry's own
symbol. -/
theorem unresolved_specifier_dropped_witness :
    (process_local_variable failing_resolver ⟨0, "a"⟩ "a" empty_db
        ("x", ⟨none, some ⟨"./missing", FromType.Default⟩⟩) =
      process_local_variable failing_resolver ⟨0, "a"⟩ "a" empty_db ("x", ⟨none, none⟩) ∧
      ∃ s ∈ (process_local_variable failing_resolver ⟨0, "a"⟩ "a" empty_db
          ("x", ⟨none, some ⟨"./missing", FromType.Default⟩⟩)).symbols,
        s.module_id = (⟨0, "a"⟩ : DModule).id ∧ s.variant = SymbolVariant.LocalVariable ∧
          s.name = "x") ∧
    (process_named_export failing_resolver ⟨0, "a"⟩ "a" empty_db
        ("y", .ReExportFrom ⟨"./missing", FromType.Named "z"⟩) =
      (get_or_create_symbol empty_db (⟨0, "a"⟩ : DModule).id .NamedExport "y").2 ∧
      ∃ s ∈ (process_named_export failing_resolver ⟨0, "a"⟩ "a" empty_db
          ("y", .ReExportFrom ⟨"./missing", FromType.Named "z"⟩)).symbols,
        s.module_id = (⟨0, "a"⟩ : DModule).id ∧ s.variant = SymbolVariant.NamedExport ∧
          s.name = "y") ∧
    handle_default_export failing_resolver ⟨0, "a"⟩
        ⟨"a", [], [], some (.ReExportFrom ⟨"./missing", FromType.Default⟩), none⟩ empty_db =
      .ok (get_or_create_symbol empty_db (⟨0, "a"⟩ : DModule).id .DefaultExport "").2 :=
  ⟨(unresolved_specifier_dropped failing_resolver ⟨0, "a"⟩ empty_db).1
      "a" "x" none "./missing" FromType.Default (by decide),
   (unresolved_specifier_dropped failing_resolver ⟨0, "a"⟩ empty_db).2.1
      "a" "y" "./missing" (FromType.Named "z") (by decide),
   (unresolved_specifier_dropped failing_resolver ⟨0, "a"⟩ empty_db).2.2
      ⟨"a", [], [], some (.ReExportFrom ⟨"./missing", FromType.Default⟩), none⟩
      "./missing" FromType.Default (by decide) (by decide)⟩

/-- C9: a star re-export whose specifier resolves to a module that has no row
yet makes `handle_re_export_star_from` fail (it uses the plain `get_module`
lookup), while an ordinary import of the same unparsed target in the
local-variable handler creates the module row on demand. -/
theorem star_requires_parsed_target (p : Project) (module : DModule)
    (sd : SymbolDependency) (db : DB) (froms : List String) (frm f : String)
    (hsome : sd.re_export_star_from = some froms)
    (hmem : frm ∈ froms)
    (hres : resolve_path p sd.canonical_path frm = some f)
    (habs : ∀ m ∈ db.modules, m.canonical_path ≠ f) :
    (handle_re_export_star_from p module sd db).isOk = false ∧
    (∀ symbol_name from_type,
      ∃ m ∈ (process_local_variable p module sd.canonical_path db
          (symbol_name, ⟨none, some ⟨frm, from_type⟩⟩)).modules,
        m.canonical_path = f) := by
  constructor
  · simp only [handle_re_export_star_from, hsome]
    exact handle_re_export_star_from_loop_unresolved_target p module sd.canonical_path
      frm f hres froms db hmem habs
  · intro symbol_name from_type
    rcases hg : get_or_create_symbol db module.id .LocalVariable symbol_name with ⟨cur, db1⟩
    simp only [process_local_variable, hres, hg]
    refine ⟨(get_or_create_module db1 f).1, ?_, get_or_create_module_fst_path db1 f⟩
    rw [create_edge_for_from_type_modules]
    exact get_or_create_module_fst_mem db1 f

/-- Witness for C9: in the empty database a star re-export of an unparsed
module fails, while the same specifier as a default import creates the
module row. -/
theorem star_requires_parsed_target_witness :
    (handle_re_export_star_from identity_resolver ⟨0, "a"⟩
      ⟨"a", [], [], none, some ["b"]⟩ empty_db).isOk = false ∧
    (∀ symbol_name from_type,
      ∃ m ∈ (process_local_variable identity_resolver ⟨0, "a"⟩
          (⟨"a", [], [], none, some ["b"]⟩ : SymbolDependency).canonical_path empty_db
          (symbol_name, ⟨none, some ⟨"b", from_type⟩⟩)).modules,
        m.canonical_path = "b") :=
  star_requires_parsed_target identity_resolver ⟨0, "a"⟩
    ⟨"a", [], [], none, some ["b"]⟩ empty_db ["b"] "b" "b"
    (by decide) (by decide) (by decide) (by decide)

theorem get_module_congr (db1 db2 : DB) (path : String) (h : db1.modules = db2.modules) :
    get_module db1 path = get_module db2 path := by
  unfold get_module
  rw [h]

theorem get_named_export_symbols_mono (db1 db2 : DB) (module_id : Nat)
    (h : db1.symbols <+: db2.symbols) :
    ∀ s ∈ get_named_export_symbols db1 module_id,
      s ∈ get_named_export_symbols db2 module_id := by
  intro s hs
  exact List.IsPrefix.subset (List.IsPrefix.filter _ h) hs

theorem handle_re_export_star_from_loop_mirrors (p : Project) (module : DModule)
    (canonical_path : String) (frm f : String)
    (hres : resolve_path p canonical_path frm = some f) (l : List String) :
    ∀ db db' : DB,
      handle_re_export_star_from_loop p module canonical_path db l = .ok db' →
      frm ∈ l → ∀ B : DModule, get_module db f = .ok B →
      ∀ s ∈ get_named_export_symbols db B.id,
        s.name ≠ SYMBOL_NAME_FOR_ANONYMOUS_DEFAULT_EXPORT →
        ∃ cur ∈ db'.symbols, cur.module_id = module.id ∧
          cur.variant = SymbolVariant.NamedExport ∧ cur.name = s.name ∧
          (cur.id, s.id) ∈ db'.edges := by
  induction l with
  | nil => intro db db' hloop hmem; exact absurd hmem (List.not_mem_nil _)
  | cons frm0 rest ih =>
    intro db db' hloop hmem B hB s hs hname
    rcases List.mem_cons.mp hmem with rfl | hmem'
    · rw [handle_re_export_star_from_loop_cons_ok p module canonical_path db frm rest
        f B hres hB] at hloop
      rcases process_star_named_exports_creates module (get_named_export_symbols db B.id)
          db s hs hname with ⟨cur, hcur, hmod, hvar, hnm, hedge⟩
      refine ⟨cur, ?_, hmod, hvar, hnm, ?_⟩
      · exact List.IsPrefix.subset
          (handle_re_export_star_from_loop_ok_symbols_grow p module canonical_path
            rest _ db' hloop) hcur
      · exact List.IsPrefix.subset
          (handle_re_export_star_from_loop_ok_edges_grow p module canonical_path
            rest _ db' hloop) hedge
    · rcases hr0 : resolve_path p canonical_path frm0 with _ | f0
      · rw [handle_re_export_star_from_loop_cons_none p module canonical_path db frm0
          rest hr0] at hloop
        exact ih db db' hloop hmem' B hB s hs hname
      · rcases hg0 : get_module db f0 with e | m0
        · rw [handle_re_export_star_from_loop_cons_error p module canonical_path db frm0
            rest f0 e hr0 hg0] at hloop
          exact absurd hloop (by simp)
        · rw [handle_re_export_star_from_loop_cons_ok p module canonical_path db frm0
            rest f0 m0 hr0 hg0] at hloop
          have hmodeq : (process_star_named_exports db module
              (get_named_export_symbols db m0.id)).modules = db.modules :=
            process_star_named_exports_modules module _ db
          have hB1 : get_module (process_star_named_exports db module
              (get_named_export_symbols db m0.id)) f = .ok B := by
            rw [get_module_congr _ db f hmodeq]
            exact hB
          have hs1 := get_named_export_symbols_mono db
            (process_star_named_exports db module (get_named_export_symbols db m0.id))
            B.id (process_star_named_exports_symbols_grow module _ db) s hs
          exact ih _ db' hloop hmem' B hB1 s hs1 hname

/-- C4: for every star re-export specifier that resolves to an existing
module B, each named export of B other than the reserved anonymous-default
name is mirrored: a `NamedExport` symbol with that name is created on the
current module and gets one edge to B's corresponding named export. -/
theorem re_export_star_mirrors (p : Project) (module : DModule) (sd : SymbolDependency)
    (db db' : DB) (froms : List String) (frm f : String) (B : DModule)
    (hsome : sd.re_export_star_from = some froms)
    (hstar : handle_re_export_star_from p module sd db = .ok db')
    (hmem : frm ∈ froms)
    (hres : resolve_path p sd.canonical_path frm = some f)
    (hB : get_module db f = .ok B)
    (s : DSymbol) (hs : s ∈ get_named_export_symbols db B.id)
    (hname : s.name ≠ SYMBOL_NAME_FOR_ANONYMOUS_DEFAULT_EXPORT) :
    ∃ cur ∈ db'.symbols, cur.module_id = module.id ∧
      cur.variant = SymbolVariant.NamedExport ∧ cur.name = s.name ∧
      (cur.id, s.id) ∈ db'.edges := by
  rw [handle_re_export_star_from, hsome] at hstar
  exact handle_re_export_star_from_loop_mirrors p module sd.canonical_path frm f hres
    froms db db' hstar hmem B hB s hs hname

/-- A database holding module `b` with a regular named export and an
anonymous-default named export, ready to be star re-exported. -/
def db_star : DB :=
  ⟨[⟨0, "a"⟩, ⟨1, "b"⟩],
   [⟨2, 1, .NamedExport, "x"⟩, ⟨3, 1, .NamedExport, SYMBOL_NAME_FOR_ANONYMOUS_DEFAULT_EXPORT⟩],
   [], [], [], [], [], 4⟩

/-- A record for module `a` that star re-exports module `b`. -/
def sd_star : SymbolDependency := ⟨"a", [], [], none, some ["b"]⟩

/-- The database after `handle_re_export_star_from` on `sd_star`: the mirror
symbol and edge for `x` exist, the anonymous-default export was skipped. -/
def db_star_result : DB :=
  ⟨[⟨0, "a"⟩, ⟨1, "b"⟩],
   [⟨2, 1, .NamedExport, "x"⟩, ⟨3, 1, .NamedExport, SYMBOL_NAME_FOR_ANONYMOUS_DEFAULT_EXPORT⟩,
    ⟨4, 0, .NamedExport, "x"⟩],
   [(4, 2)], [], [], [], [], 5⟩

/-- Witness for C4: star re-exporting `b` from `a` creates the mirror
`NamedExport x` on `a` with an edge to `b`'s `NamedExport x`. -/
theorem re_export_star_mirrors_witness :
    ∃ cur ∈ db_star_result.symbols, cur.module_id = (⟨0, "a"⟩ : DModule).id ∧
      cur.variant = SymbolVariant.NamedExport ∧
      cur.name = (⟨2, 1, .NamedExport, "x"⟩ : DSymbol).name ∧
      (cur.id, (⟨2, 1, .NamedExport, "x"⟩ : DSymbol).id) ∈ db_star_result.edges :=
  re_export_star_mirrors identity_resolver ⟨0, "a"⟩ sd_star db_star db_star_result
    ["b"] "b" "b" ⟨1, "b"⟩ (by decide) (by decide) (by decide) (by decide) (by decide)
    ⟨2, 1, .NamedExport, "x"⟩ (by decide) (by decide)

/-- C1: namespace anonymity firewall. Neither the namespace expansion shared
by the local-variable and named-export handlers nor a star re-export ever
creates an edge whose target is a `NamedExport` symbol carrying the reserved
anonymous-default name. -/
theorem namespace_anonymity_firewall (db db' : DB) (current_id import_from_module_id : Nat)
    (p : Project) (module : DModule) (sd : SymbolDependency)
    (hwf : db_wf db)
    (hstar : handle_re_export_star_from p module sd db = .ok db') :
    (∀ e ∈ (create_edge_for_from_type db current_id import_from_module_id
        FromType.Namespace).edges,
      e ∉ db.edges →
      ∀ s ∈ (create_edge_for_from_type db current_id import_from_module_id
          FromType.Namespace).symbols,
        s.id = e.2 →
        ¬(s.variant = SymbolVariant.NamedExport ∧
          s.name = SYMBOL_NAME_FOR_ANONYMOUS_DEFAULT_EXPORT)) ∧
    (∀ e ∈ db'.edges, e ∉ db.edges →
      ∀ s ∈ db'.symbols, s.id = e.2 →
        ¬(s.variant = SymbolVariant.NamedExport ∧
          s.name = SYMBOL_NAME_FOR_ANONYMOUS_DEFAULT_EXPORT)) := by
  constructor
  · intro e he hnew s hs hid hbad
    have heq : create_edge_for_from_type db current_id import_from_module_id
        FromType.Namespace =
      create_edges_to_named_exports db current_id
        (get_named_export_symbols db import_from_module_id) := rfl
    rw [heq] at he hs
    rw [create_edges_to_named_exports_symbols] at hs
    rcases create_edges_to_named_exports_edge_cases current_id
        (get_named_export_symbols db import_from_module_id) db e he with h | ⟨t, ht, htn, hte⟩
    · exact hnew h
    · obtain ⟨htmem, _, _⟩ := get_named_export_symbols_mem db import_from_module_id t ht
      have hids : s = t := by
        refine List.inj_on_of_nodup_map hwf.2 hs htmem ?_
        rw [hid, hte]
      rw [hids] at hbad
      exact htn hbad.2
  · intro e he hnew s hs hid hbad
    rcases hsf : sd.re_export_star_from with _ | l
    · rw [handle_re_export_star_from, hsf] at hstar
      have hd : db = db' := by injection hstar
      rw [← hd] at he
      exact hnew he
    · rw [handle_re_export_star_from, hsf] at hstar
      have hwf' : db_wf db' :=
        handle_re_export_star_from_loop_ok_wf p module sd.canonical_path l db db' hstar hwf
      rcases handle_re_export_star_from_loop_edge_cases p module sd.canonical_path l
          db db' hstar e he with h | ⟨t, ht, htv, htn, hte⟩
      · exact hnew h
      · have hids : s = t := by
          refine List.inj_on_of_nodup_map hwf'.2 hs ht ?_
          rw [hid, hte]
        rw [hids] at hbad
        exact htn hbad.2

/-- Witness for C1 on the concrete star re-export example: the only new edge
targets the non-anonymous named export `x`, never the reserved name. -/
theorem namespace_anonymity_firewall_witness :
    ¬((⟨2, 1, .NamedExport, "x"⟩ : DSymbol).variant = SymbolVariant.NamedExport ∧
      (⟨2, 1, .NamedExport, "x"⟩ : DSymbol).name =
        SYMBOL_NAME_FOR_ANONYMOUS_DEFAULT_EXPORT) ∧
    ¬((⟨2, 1, .NamedExport, "x"⟩ : DSymbol).variant = SymbolVariant.NamedExport ∧
      (⟨2, 1, .NamedExport, "x"⟩ : DSymbol).name =
        SYMBOL_NAME_FOR_ANONYMOUS_DEFAULT_EXPORT) :=
  ⟨(namespace_anonymity_firewall db_star db_star_result 9 1 identity_resolver ⟨0, "a"⟩
      sd_star (by decide) (by decide)).1 (9, 2) (by decide) (by decide)
      ⟨2, 1, .NamedExport, "x"⟩ (by decide) (by decide),
   (namespace_anonymity_firewall db_star db_star_result 9 1 identity_resolver ⟨0, "a"⟩
      sd_star (by decide) (by decide)).2 (4, 2) (by decide) (by decide)
      ⟨2, 1, .NamedExport, "x"⟩ (by decide) (by decide)⟩

/-- A database holding module `b` with one named export `x`, about to receive
module `a` which both names an export `x` of its own and star re-exports
`b`. -/
def db_c6 : DB := ⟨[⟨0, "b"⟩], [⟨1, 0, .NamedExport, "x"⟩], [], [], [], [], [], 2⟩

/-- The record of module `a`: named export `x → Local x` plus
`export * from b`. -/
def sd_c6 : SymbolDependency := ⟨"a", [], [("x", .Local "x")], none, some ["b"]⟩

/-- Counterexample to C6 as stated: a single `add_module` run creates two
distinct symbol rows for the same `(module, variant, name)` triple — the
named-export handler upserts `NamedExport x` on module `a` via
`get_or_create_symbol`, and the star re-export handler then inserts a second
`NamedExport x` row via `add_symbol`, which is not an idempotent upsert. -/
theorem relational_upserts_counterexample :
    (add_module identity_resolver db_c6 sd_c6).toOption.map
        (fun r => (r.2.symbols.filter (fun s =>
          decide (s.module_id = 2 ∧ s.variant = SymbolVariant.NamedExport ∧
            s.name = "x"))).length) = some 2 := by decide

/-- C6 amended: module rows and the symbol rows of the local-variable,
named-export and default-export handlers are created through the idempotent
upserts `get_or_create_module` and `get_or_create_symbol` (creating the same
key twice yields the same row and leaves the database unchanged), and
`create_symbol_dependency_edge` creates each edge at most once per ordered
pair; only the star re-export handler's mirror symbols go through the
non-idempotent `add_symbol`. -/
theorem relational_upserts (db : DB) (path : String) (module_id : Nat)
    (variant : SymbolVariant) (name : String) (a b : Nat) :
    get_or_create_module (get_or_create_module db path).2 path =
      ((get_or_create_module db path).1, (get_or_create_module db path).2) ∧
    get_or_create_symbol (get_or_create_symbol db module_id variant name).2
        module_id variant name =
      ((get_or_create_symbol db module_id variant name).1,
        (get_or_create_symbol db module_id variant name).2) ∧
    (db.edges.count (a, b) ≤ 1 →
      (create_symbol_dependency_edge db a b).edges.count (a, b) ≤ 1) ∧
    create_symbol_dependency_edge (create_symbol_dependency_edge db a b) a b =
      create_symbol_dependency_edge db a b := by
  refine ⟨?_, ?_, ?_, ?_⟩
  · cases hf : db.modules.find? (fun m => decide (m.canonical_path = path)) with
    | some m => simp only [get_or_create_module, hf]
    | none =>
      have hf2 : (db.modules ++ [(⟨db.next_id, path⟩ : DModule)]).find?
          (fun m => decide (m.canonical_path = path)) = some ⟨db.next_id, path⟩ := by
        rw [List.find?_append, hf]
        simp
      simp only [get_or_create_module, hf, hf2]
  · cases hf : db.symbols.find? (fun s =>
        decide (s.module_id = module_id ∧ s.variant = variant ∧ s.name = name)) with
    | some s => simp only [get_or_create_symbol, hf]
    | none =>
      have hf2 : (db.symbols ++ [(⟨db.next_id, module_id, variant, name⟩ : DSymbol)]).find?
          (fun s => decide (s.module_id = module_id ∧ s.variant = variant ∧
            s.name = name)) = some ⟨db.next_id, module_id, variant, name⟩ := by
        rw [List.find?_append, hf]
        simp
      simp only [get_or_create_symbol, hf, hf2]
  · intro hcount
    unfold create_symbol_dependency_edge
    split
    · exact hcount
    · next hmem =>
      rw [List.count_append]
      have h0 : db.edges.count (a, b) = 0 := List.count_eq_zero.mpr hmem
      rw [h0]
      simp
  · have h := create_symbol_dependency_edge_mem db a b
    rw [show create_symbol_dependency_edge (create_symbol_dependency_edge db a b) a b =
        if (a, b) ∈ (create_symbol_dependency_edge db a b).edges then
          create_symbol_dependency_edge db a b
        else { create_symbol_dependency_edge db a b with
          edges := (create_symbol_dependency_edge db a b).edges ++ [(a, b)] } from rfl,
      if_pos h]

/-- Witness for C6 amended, at concrete inputs. -/
theorem relational_upserts_witness :
    get_or_create_module (get_or_create_module empty_db "m").2 "m" =
      ((get_or_create_module empty_db "m").1, (get_or_create_module empty_db "m").2) ∧
    get_or_create_symbol (get_or_create_symbol empty_db 0 .LocalVariable "x").2
        0 .LocalVariable "x" =
      ((get_or_create_symbol empty_db 0 .LocalVariable "x").1,
        (get_or_create_symbol empty_db 0 .LocalVariable "x").2) ∧
    (create_symbol_dependency_edge empty_db 1 2).edges.count (1, 2) ≤ 1 ∧
    create_symbol_dependency_edge (create_symbol_dependency_edge empty_db 1 2) 1 2 =
      create_symbol_dependency_edge empty_db 1 2 :=
  ⟨(relational_upserts empty_db "m" 0 .LocalVariable "x" 1 2).1,
   (relational_upserts empty_db "m" 0 .LocalVariable "x" 1 2).2.1,
   (relational_upserts empty_db "m" 0 .LocalVariable "x" 1 2).2.2.1 (by decide),
   (relational_upserts empty_db "m" 0 .LocalVariable "x" 1 2).2.2.2⟩

/-- C7: an i18n usage entry or a route dependency that names a symbol with no
`LocalVariable` row on the current module makes the whole call fail (the
entry is not skipped). -/
theorem overlay_unknown_symbol_fatal (db : DB) (module : DModule) :
    (∀ (i18n_usage : List (String × List String)) symbol_name i18n_keys,
      (symbol_name, i18n_keys) ∈ i18n_usage →
      (∀ s ∈ db.symbols,
        ¬(s.module_id = module.id ∧ s.variant = SymbolVariant.LocalVariable ∧
          s.name = symbol_name)) →
      (add_i18n_usage db module i18n_usage).isOk = false) ∧
    (∀ (route_usage : List Route) r symbol_name,
      r ∈ route_usage → symbol_name ∈ r.depend_on →
      (∀ s ∈ db.symbols,
        ¬(s.module_id = module.id ∧ s.variant = SymbolVariant.LocalVariable ∧
          s.name = symbol_name)) →
      (add_route_usage db module route_usage).isOk = false) := by
  constructor
  · intro table symbol_name i18n_keys hmem habs
    exact add_i18n_usage_loop_unknown_symbol module table db symbol_name i18n_keys hmem habs
  · intro routes r symbol_name hr hname habs
    exact add_route_usage_loop_unknown module routes db r hr symbol_name hname habs

/-- Witness for C7: in the empty database both overlay calls fail on an
unknown symbol name. -/
theorem overlay_unknown_symbol_fatal_witness :
    (add_i18n_usage empty_db ⟨0, "a"⟩ [("x", ["k"])]).isOk = false ∧
    (add_route_usage empty_db ⟨0, "a"⟩ [⟨"/p", ["x"]⟩]).isOk = false :=
  ⟨(overlay_unknown_symbol_fatal empty_db ⟨0, "a"⟩).1 [("x", ["k"])] "x" ["k"]
      (by decide) (by decide),
   (overlay_unknown_symbol_fatal empty_db ⟨0, "a"⟩).2 [⟨"/p", ["x"]⟩] ⟨"/p", ["x"]⟩ "x"
      (by decide) (by decide) (by decide)⟩

/-- C8: for the i18n keys attached to a known local symbol, the call
succeeds; every key present in the translation table yields a
`TranslationUsage` row linking that translation to the symbol, and absent
keys produce no row while the remaining keys are still processed. -/
theorem i18n_key_policy (db : DB) (module : DModule) (symbol_name : String)
    (i18n_keys : List String) (symbol : DSymbol)
    (hsym : get_symbol db module.id .LocalVariable symbol_name = .ok symbol) :
    add_i18n_usage db module [(symbol_name, i18n_keys)] =
      .ok (add_i18n_usage_keys db symbol i18n_keys) ∧
    (∀ key ∈ i18n_keys, (∃ t ∈ db.translations, t.key = key) →
      ∃ t ∈ db.translations, t.key = key ∧
        (t.id, symbol.id) ∈ (add_i18n_usage_keys db symbol i18n_keys).translation_usages) ∧
    (∀ u ∈ (add_i18n_usage_keys db symbol i18n_keys).translation_usages,
      u ∈ db.translation_usages ∨
        ∃ t ∈ db.translations, t.key ∈ i18n_keys ∧ u = (t.id, symbol.id)) := by
  refine ⟨?_, add_i18n_usage_keys_creates symbol i18n_keys db,
    add_i18n_usage_keys_cases symbol i18n_keys db⟩
  show add_i18n_usage_loop db module [(symbol_name, i18n_keys)] = _
  rw [add_i18n_usage_loop_cons_ok db module symbol_name i18n_keys [] symbol hsym]
  rfl

/-- A database with one local symbol on module 5 and one translation row. -/
def db_i18n : DB :=
  ⟨[⟨5, "a"⟩], [⟨0, 5, .LocalVariable, "x"⟩], [], [⟨1, "k", "v"⟩], [], [], [], 6⟩

/-- Witness for C8: key `k` is in the translation table and gets a usage row;
key `absent` is not and is silently skipped. -/
theorem i18n_key_policy_witness :
    add_i18n_usage db_i18n ⟨5, "a"⟩ [("x", ["k", "absent"])] =
      .ok (add_i18n_usage_keys db_i18n ⟨0, 5, .LocalVariable, "x"⟩ ["k", "absent"]) ∧
    (∀ key ∈ ["k", "absent"], (∃ t ∈ db_i18n.translations, t.key = key) →
      ∃ t ∈ db_i18n.translations, t.key = key ∧
        (t.id, (⟨0, 5, .LocalVariable, "x"⟩ : DSymbol).id) ∈
          (add_i18n_usage_keys db_i18n
            ⟨0, 5, .LocalVariable, "x"⟩ ["k", "absent"]).translation_usages) ∧
    (∀ u ∈ (add_i18n_usage_keys db_i18n
        ⟨0, 5, .LocalVariable, "x"⟩ ["k", "absent"]).translation_usages,
      u ∈ db_i18n.translation_usages ∨
        ∃ t ∈ db_i18n.translations, t.key ∈ ["k", "absent"] ∧
          u = (t.id, (⟨0, 5, .LocalVariable, "x"⟩ : DSymbol).id)) :=
  i18n_key_policy db_i18n ⟨5, "a"⟩ "x" ["k", "absent"]
    ⟨0, 5, .LocalVariable, "x"⟩ (by decide)

/-- C10: `Project::remove_prefix` is total and never fails: when the path
starts with the project root, the result is the remainder after that prefix
(prepending the root recovers the path); otherwise the input is returned
unchanged. -/
theorem remove_prefix_total (project_root canonical_path : String) :
    (project_root.data.isPrefixOf canonical_path.data = true →
      project_root ++ remove_prefix project_root canonical_path = canonical_path) ∧
    (project_root.data.isPrefixOf canonical_path.data = false →
      remove_prefix project_root canonical_path = canonical_path) := by
  constructor
  · intro h
    have hp : project_root.data <+: canonical_path.data := by
      rw [← List.isPrefixOf_iff_prefix]
      exact h
    obtain ⟨t, ht⟩ := hp
    simp only [ remove_prefix, h]
    have hd : canonical_path.data.drop project_root.data.length = t := by
      rw [← ht, List.drop_left]
    rw [hd]
    apply String.ext
    rw [String.data_append]
    exact ht
  · intro h
    simp only [ remove_prefix, h]

/-- Witness for C10 at concrete inputs: a path under the root loses the root
prefix, a path outside the root is unchanged. -/
theorem remove_prefix_total_witness :
    "root/" ++ remove_prefix "root/" "root/a.js" = "root/a.js" ∧
    remove_prefix "other/" "root/a.js" = "root/a.js" :=
  ⟨(remove_prefix_total "root/" "root/a.js").1 (by decide),
   (remove_prefix_total "other/" "root/a.js").2 (by decide)⟩

/-- C5: under the extractor invariant that the default export is never a
namespace re-export (the spec makes that combination statically
impossible), `handle_default_export` never reaches its `unreachable!` arm:
it always succeeds. -/
theorem handle_default_export_no_panic (p : Project) (module : DModule)
    (sd : SymbolDependency) (db : DB)
    (h : ∀ f, sd.default_export = some (ModuleExport.ReExportFrom f) →
      f.from_type ≠ FromType.Namespace) :
    (handle_default_export p module sd db).isOk = true := by
  rcases hde : sd.default_export with _ | de
  · simp only [handle_default_export, hde]
    rfl
  · rcases de with name | fom
    · simp only [handle_default_export, hde]
      rfl
    · rcases fom with ⟨from_path, from_type⟩
      rcases hr : resolve_path p sd.canonical_path from_path with _ | f
      · simp only [handle_default_export, hde, hr]
        rfl
      · cases from_type with
        | Named n =>
          simp only [handle_default_export, hde, hr]
          rfl
        | Default =>
          simp only [handle_default_export, hde, hr]
          rfl
        | Namespace =>
          exact absurd rfl (h ⟨from_path, .Namespace⟩ hde)

/-- Witness for C5: a record whose default export refers to a local symbol
satisfies the extractor invariant and the handler succeeds on it. -/
theorem handle_default_export_no_panic_witness :
    (handle_default_export failing_resolver ⟨0, "a"⟩
      ⟨"a", [], [], some (ModuleExport.Local "x"), none⟩ empty_db).isOk = true :=
  handle_default_export_no_panic failing_resolver ⟨0, "a"⟩
    ⟨"a", [], [], some (ModuleExport.Local "x"), none⟩ empty_db
    (by intro f hf; simp at hf)

/-- C3: `Project::add_module` processes the record through the four entry
points in fixed order — local-variable table, named-export table, default
export, then star re-exports — and on success returns the module row created
for the record's canonical path. -/
theorem add_module_four_phases (p : Project) (db : DB) (sd : SymbolDependency)
    (module : DModule) (db4 : DB)
    (h : add_module p db sd = .ok (module, db4)) :
    module = (get_or_create_module db ( remove_prefix p.project_root sd.canonical_path)).1 ∧
    module.canonical_path = remove_prefix p.project_root sd.canonical_path ∧
    ∃ db3,
      handle_default_export p module sd
        (handle_named_export_table p module sd
          (handle_local_variable_table p module sd
            (get_or_create_module db
              ( remove_prefix p.project_root sd.canonical_path)).2)) = .ok db3 ∧
      handle_re_export_star_from p module sd db3 = .ok db4 := by
  rw [add_module_eq] at h
  split at h
  · exact absurd h (by simp)
  · next db3 hd =>
    split at h
    · exact absurd h (by simp)
    · next db4' hs =>
      have hinj : ((get_or_create_module db
          ( remove_prefix p.project_root sd.canonical_path)).1, db4') = (module, db4) := by
        injection h
      have hmod : (get_or_create_module db
          ( remove_prefix p.project_root sd.canonical_path)).1 = module := congrArg Prod.fst hinj
      have hdb : db4' = db4 := congrArg Prod.snd hinj
      subst hmod
      subst hdb
      exact ⟨rfl, get_or_create_module_fst_path db _, db3, hd, hs⟩

/-- Witness for C3: running `add_module` on an empty record in the empty
database succeeds and decomposes into the four phases. -/
theorem add_module_four_phases_witness :
    (⟨0, "a"⟩ : DModule) = (get_or_create_module empty_db
        ( remove_prefix failing_resolver.project_root sd_trivial.canonical_path)).1 ∧
    (⟨0, "a"⟩ : DModule).canonical_path =
      remove_prefix failing_resolver.project_root sd_trivial.canonical_path ∧
    ∃ db3,
      handle_default_export failing_resolver ⟨0, "a"⟩ sd_trivial
        (handle_named_export_table failing_resolver ⟨0, "a"⟩ sd_trivial
          (handle_local_variable_table failing_resolver ⟨0, "a"⟩ sd_trivial
            (get_or_create_module empty_db
              ( remove_prefix failing_resolver.project_root sd_trivial.canonical_path)).2)) =
        .ok db3 ∧
      handle_re_export_star_from failing_resolver ⟨0, "a"⟩ sd_trivial db3 =
        .ok ⟨[⟨0, "a"⟩], [], [], [], [], [], [], 1⟩ :=
  add_module_four_phases failing_resolver empty_db sd_trivial ⟨0, "a"⟩
    ⟨[⟨0, "a"⟩], [], [], [], [], [], [], 1⟩ (by decide)

end DT
